import Mathlib

/-!
Verification of the social-media-automation pipeline (Python sources under
`app/`), as a shallow embedding in Lean 4.  Python strings are modelled as
`List Char` (one `Char` per Unicode scalar value, which matches Python's
per-code-point `len` and slicing); machine-level concerns (network, database
I/O, wall-clock time, random number generation) are modelled as explicit
parameters or oracles, documented at each definition.
-/


namespace Py

/-- Python `str.split(sep)` for a single-character separator: `"a&&b".split("&")`
is `["a", "", "b"]` and `"".split("&")` is `[""]`. -/
def splitSep (sep : Char) : List Char → List (List Char)
  | [] => [[]]
  | c :: rest =>
    let r := splitSep sep rest
    if c = sep then [] :: r
    else match r with
      | [] => [[c]]
      | h :: t => (c :: h) :: t

/-- Split a list at the first occurrence of `c`: `some (before, after)` with the
occurrence itself dropped, or `none` when `c` does not occur.  This is the
`s.split(c, 1)` / first-occurrence search used throughout the embedding. -/
def splitFirst (sep : Char) : List Char → Option (List Char × List Char)
  | [] => none
  | c :: rest =>
    if c = sep then some ([], rest)
    else (splitFirst sep rest).map fun p => (c :: p.1, p.2)

/-- Python whitespace for `str.strip` / `\s` (ASCII part, which is what the
posts and URLs in this code base contain). -/
def isSpace (c : Char) : Bool :=
  c = ' ' || c = '\t' || c = '\n' || c = '\x0d' || c = '\x0b' || c = '\x0c'

/-- `str.lstrip()` (ASCII whitespace). -/
def lstrip (l : List Char) : List Char := l.dropWhile isSpace

/-- `str.rstrip()` (ASCII whitespace). -/
def rstrip (l : List Char) : List Char := (l.reverse.dropWhile isSpace).reverse

/-- `str.strip()` (ASCII whitespace). -/
def strip (l : List Char) : List Char := rstrip (lstrip l)

/-- `str.strip(chars)`: remove every leading and trailing character that
satisfies `p`. -/
def stripChars (p : Char → Bool) (l : List Char) : List Char :=
  ((l.dropWhile p).reverse.dropWhile p).reverse

/-- Python `s.startswith(pat)` on char lists. -/
def startsWith : List Char → List Char → Bool
  | [], _ => true
  | _ :: _, [] => false
  | p :: ps, c :: cs => p = c && startsWith ps cs

/-- Python `pat in s` (substring containment). -/
def containsSub (pat : List Char) : List Char → Bool
  | [] => startsWith pat []
  | c :: rest => startsWith pat (c :: rest) || containsSub pat rest

/-- ASCII lower-casing, Python `str.lower()` on the ASCII range (the only
range the code compares case-insensitively). -/
def lowerChar (c : Char) : Char :=
  if 'A' ≤ c ∧ c ≤ 'Z' then Char.ofNat (c.toNat + 32) else c

def lower (l : List Char) : List Char := l.map lowerChar

/-- Python slicing `s[:n]`. -/
def take (n : Nat) (l : List Char) : List Char := l.take n

end Py

namespace Dedup

/-! ## `app/pipeline/deduplicator.py` — URL normalization

`normalize_url` relies on `urllib.parse.urlparse`, `parse_qs` and `urlencode`;
those standard-library functions are modelled below at the fidelity the code
exercises: `urlparse` splits `scheme:`, `//netloc`, `#fragment`, `?query` in
CPython's order; `parse_qs`/`urlencode` with `doseq=True` and default
`keep_blank_values=False`.  Percent-decoding (`unquote_plus`) and
percent-encoding (`quote_plus`) are modelled for the ASCII byte range (the
multi-byte UTF-8 paths are not exercised by the theorems below, whose
hypotheses restrict query components to URL-safe characters). -/

/-- The components `urlparse` returns (the url-split five-tuple; `params` is
not used by this code base). -/
structure UrlParts where
  scheme : List Char
  netloc : List Char
  path : List Char
  query : List Char
  fragment : List Char
  deriving Repr, DecidableEq

/-- A valid scheme character after the first (CPython `scheme_chars`). -/
def isSchemeChar (c : Char) : Bool :=
  c.isAlphanum || c = '+' || c = '-' || c = '.'

/-- CPython `urlsplit` scheme detection: a `:` preceded by a non-empty run of
scheme characters starting with a letter; the scheme is lower-cased. -/
def schemeSplit (l : List Char) : Option (List Char × List Char) :=
  match Py.splitFirst ':' l with
  | none => none
  | some (pre, rest) =>
    match pre with
    | [] => none
    | c :: cs =>
      if c.isAlpha && cs.all isSchemeChar then some (Py.lower (c :: cs), rest)
      else none

/-- CPython `urlsplit` netloc: if the remainder starts with `//`, the netloc
runs up to the next `/`, `?` or `#`. -/
def notNetlocEnd (c : Char) : Bool := c ≠ '/' && c ≠ '?' && c ≠ '#'

def netlocSplit (l : List Char) : List Char × List Char :=
  match l with
  | '/' :: '/' :: rest => (rest.takeWhile notNetlocEnd, rest.dropWhile notNetlocEnd)
  | _ => ([], l)

/-- Model of `urllib.parse.urlparse` (fragment and query split after scheme
and netloc, as in CPython `urlsplit`). -/
def pyUrlparse (url : List Char) : UrlParts :=
  let (scheme, rest) :=
    match schemeSplit url with
    | some (s, r) => (s, r)
    | none => ([], url)
  let (netloc, rest) := netlocSplit rest
  let (rest, fragment) :=
    match Py.splitFirst '#' rest with
    | some (a, b) => (a, b)
    | none => (rest, [])
  let (path, query) :=
    match Py.splitFirst '?' rest with
    | some (a, b) => (a, b)
    | none => (rest, [])
  ⟨scheme, netloc, path, query, fragment⟩

/-- Hexadecimal digit value for percent-decoding. -/
def hexVal (c : Char) : Option Nat :=
  if '0' ≤ c ∧ c ≤ '9' then some (c.toNat - 48)
  else if 'a' ≤ c ∧ c ≤ 'f' then some (c.toNat - 87)
  else if 'A' ≤ c ∧ c ≤ 'F' then some (c.toNat - 70)
  else none

/-- Model of `urllib.parse.unquote_plus` restricted to single-byte escapes:
`+` becomes a space and `%XX` hex decodes to the character with that code
(multi-byte UTF-8 sequences are out of the exercised domain; an undecodable
escape is kept verbatim, as CPython keeps invalid escapes). -/
def unquotePlus : List Char → List Char
  | [] => []
  | c :: rest =>
    if c = '+' then ' ' :: unquotePlus rest
    else if c = '%' then
      match rest with
      | hi :: lo :: rest' =>
        match hexVal hi, hexVal lo with
        | some a, some b => Char.ofNat (16 * a + b) :: unquotePlus rest'
        | _, _ => '%' :: unquotePlus (hi :: lo :: rest')
      | r => '%' :: unquotePlus r
    else c :: unquotePlus rest
termination_by l => l.length
decreasing_by all_goals simp_arith [List.length_cons]

/-- Characters `quote_plus` leaves unescaped (`always_safe`: letters, digits,
`_ . - ~`). -/
def isQuoteSafe (c : Char) : Bool :=
  c.isAlphanum || c = '_' || c = '.' || c = '-' || c = '~'

def hexDigit (n : Nat) : Char :=
  if n < 10 then Char.ofNat (48 + n) else Char.ofNat (55 + n)

/-- Model of `urllib.parse.quote_plus` on the ASCII range: safe characters are
kept, a space becomes `+`, anything else becomes `%XX` (upper-case hex of the
code point; the multi-byte UTF-8 path is out of the exercised domain). -/
def quotePlus (l : List Char) : List Char :=
  l.flatMap fun c =>
    if isQuoteSafe c then [c]
    else if c = ' ' then ['+']
    else ['%', hexDigit (c.toNat / 16), hexDigit (c.toNat % 16)]

/-- One `name=value` field of a query string, as `parse_qsl` reads it with
`keep_blank_values=False`: an empty field, a field without `=` and a field
with an empty value are all dropped. -/
def qslField (nv : List Char) : Option (List Char × List Char) :=
  if nv = [] then none
  else
    match Py.splitFirst '=' nv with
    | none => none
    | some (k, v) => if v = [] then none else some (unquotePlus k, unquotePlus v)

/-- Model of `urllib.parse.parse_qsl(qs)` (default separator `&`). -/
def parseQsl (qs : List Char) : List (List Char × List Char) :=
  (Py.splitSep '&' qs).filterMap qslField

/-- Append one `(key, value)` into the grouped dictionary `parse_qs` builds,
preserving first-occurrence key order. -/
def insertGrouped (k v : List Char) :
    List (List Char × List (List Char)) → List (List Char × List (List Char))
  | [] => [(k, [v])]
  | (k', vs) :: rest =>
    if k' = k then (k', vs ++ [v]) :: rest else (k', vs) :: insertGrouped k v rest

/-- Model of `urllib.parse.parse_qs(qs)`: the `parse_qsl` pairs grouped into an
insertion-ordered dictionary of value lists. -/
def parseQs (qs : List Char) : List (List Char × List (List Char)) :=
  (parseQsl qs).foldl (fun acc p => insertGrouped p.1 p.2 acc) []

/-- The tracking parameters `normalize_url` removes (deduplicator.py lines
16-19). -/
def trackingParams : List (List Char) :=
  ["utm_source", "utm_medium", "utm_campaign", "utm_content", "utm_term",
   "ref", "source", "fbclid", "gclid", "mc_cid", "mc_eid"].map String.data

def isTracking (k : List Char) : Bool := trackingParams.contains (Py.lower k)

/-- The dict comprehension `{k: v for k, v in params.items() if k.lower() not
in tracking_params}` (order-preserving). -/
def cleanedParams (ps : List (List Char × List (List Char))) :
    List (List Char × List (List Char)) :=
  ps.filter fun p => !isTracking p.1

/-- `"&".join` of the encoded fields. -/
def joinAmp : List (List Char) → List Char
  | [] => []
  | [x] => x
  | x :: xs => x ++ '&' :: joinAmp xs

/-- Model of `urllib.parse.urlencode(cleaned, doseq=True)`: each key/value
quoted with `quote_plus`, fields joined with `&` in dictionary order. -/
def urlencode (ps : List (List Char × List (List Char))) : List Char :=
  joinAmp (ps.flatMap fun p => p.2.map fun v => quotePlus p.1 ++ '=' :: quotePlus v)

/-- `parsed.path.rstrip("/")`. -/
def rstripSlash (l : List Char) : List Char :=
  (l.reverse.dropWhile (· = '/')).reverse

/-- `normalize_url` (deduplicator.py lines 11-34).  The Python body cannot
raise on any input in this model, so the `try/except` returning the raw URL
unchanged has no error path to take and is not represented. -/
def normalize_url (url : String) : String :=
  let parsed := pyUrlparse url.data
  let query :=
    if parsed.query ≠ [] then
      let params := parseQs parsed.query
      let cleaned := cleanedParams params
      if cleaned ≠ [] then urlencode cleaned else []
    else []
  let path := if rstripSlash parsed.path = [] then ['/'] else rstripSlash parsed.path
  let normalized := parsed.scheme ++ ':' :: '/' :: '/' :: parsed.netloc ++ path
  String.mk (if query ≠ [] then normalized ++ '?' :: query else normalized)

/-! ### Well-formed absolute URLs

The claims about `normalize_url` quantify over URLs; they are stated over
URLs assembled from explicit components (`renderUrl`), with decidable
well-formedness restrictions that keep every component inside the ASCII
subset this code base actually handles. -/
/-- A well-formed scheme: non-empty, a valid CPython scheme (letter first,
then scheme characters), already lower-case, and free of URL delimiters. -/
def wfScheme (s : List Char) : Bool :=
  (match s with
   | [] => false
   | c :: cs => c.isAlpha && cs.all isSchemeChar) &&
  s.all fun c => Py.lowerChar c = c && c ≠ ':' && c ≠ '/' && c ≠ '?' && c ≠ '#'

/-- A well-formed host: no `/`, `?` or `#` (a port, as in `host:8080`, is
allowed). -/
def wfHost (h : List Char) : Bool := h.all notNetlocEnd

/-- A well-formed path: empty or starting with `/`, containing no `?` or
`#`. -/
def wfPath (p : List Char) : Bool :=
  (match p with
   | [] => true
   | c :: _ => c = '/') &&
  p.all fun c => c ≠ '?' && c ≠ '#'

/-- A character allowed in a query key or value: URL-safe under `quote_plus`
(so encoding and decoding are the identity) and none of the structural
characters `& = ? # % +`. -/
def isSafeQ (c : Char) : Bool :=
  isQuoteSafe c && c ≠ '&' && c ≠ '=' && c ≠ '%' && c ≠ '+' && c ≠ '?' && c ≠ '#'

/-- A well-formed query pair: non-empty key and value of safe characters. -/
def wfPair (p : List Char × List Char) : Bool :=
  !p.1.isEmpty && !p.2.isEmpty && p.1.all isSafeQ && p.2.all isSafeQ

def wfQuery (q : List (List Char × List Char)) : Bool := q.all wfPair

/-- The raw query string `k1=v1&k2=v2&...` of a pair list. -/
def encodeRaw (q : List (List Char × List Char)) : List Char :=
  joinAmp (q.map fun p => p.1 ++ '=' :: p.2)

/-- The URL `scheme://host path ?query` assembled from components. -/
def renderUrl (s h p : List Char) (q : List (List Char × List Char)) : List Char :=
  s ++ ':' :: '/' :: '/' :: h ++ p ++ (if q = [] then [] else '?' :: encodeRaw q)

/-- `parse_qs`-style grouping of a pair list (first-occurrence key order). -/
def groupPairs (q : List (List Char × List Char)) :
    List (List Char × List (List Char)) :=
  q.foldl (fun acc p => insertGrouped p.1 p.2 acc) []

/-- The pair list a grouped dictionary flattens back to under
`urlencode(..., doseq=True)`. -/
def flattenGroups (gs : List (List Char × List (List Char))) :
    List (List Char × List Char) :=
  gs.flatMap fun g => g.2.map fun v => (g.1, v)

/-- Dropping the tracking pairs of a raw pair list ("the two URLs differ only
by tracking parameters" is stated as equality of these filtrations). -/
def dropTracking (q : List (List Char × List Char)) :
    List (List Char × List Char) :=
  q.filter fun p => !isTracking p.1

/-- The canonical path `normalize_url` produces. -/
def canonPath (p : List Char) : List Char :=
  if rstripSlash p = [] then ['/'] else rstripSlash p

/-- The canonical grouped query `normalize_url` produces. -/
def canonQuery (q : List (List Char × List Char)) :
    List (List Char × List (List Char)) :=
  cleanedParams (groupPairs q)

/-! ## Lemmas about the URL model -/

/-- First element of the remainder after the netloc breaks the netloc scan. -/
def breaksNetloc : List Char → Bool
  | [] => true
  | c :: _ => !notNetlocEnd c

/-! ### Grouping (`parse_qs` dictionaries) -/
def keysOf (gs : List (List Char × List (List Char))) : List (List Char) :=
  gs.map Prod.fst

/-- Per-group well-formedness: key and every value non-empty with safe
characters. -/
def wfGroup (g : List Char × List (List Char)) : Prop :=
  (g.1 ≠ [] ∧ ∀ c ∈ g.1, isSafeQ c = true) ∧
    ∀ w ∈ g.2, w ≠ [] ∧ ∀ c ∈ w, isSafeQ c = true

end Dedup

namespace PostParser

/-! ## `app/pipeline/post_parser.py`

`parse_ai_output` applies four extraction strategies in order (delimiters,
`LABEL:` prefixes, markdown headers, a paragraph-split heuristic), cleans the
results and enforces the 280-character short-form ceiling.  The `re.search`
calls are modelled operationally: a scanner that tries the literal prefix at
each position (leftmost match), with the lazy group `(.+?)` ending at the
earliest following marker occurrence that leaves the mandatory one character
of content, exactly as the backtracking engine resolves those patterns; the
extracted group is stripped as in the source. -/

def liMarker : List Char := "---LINKEDIN---".data

def twMarker : List Char := "---TWITTER---".data

def endMarker : List Char := "---END---".data

def liLabel : List Char := "LINKEDIN:".data

def twLabel : List Char := "TWITTER:".data

/-- Smallest index at which `pat` occurs in `l`. -/
def occIdx (pat : List Char) : List Char → Option Nat
  | [] => if Py.startsWith pat [] then some 0 else none
  | l@(_ :: rest) =>
    if Py.startsWith pat l then some 0
    else (occIdx pat rest).map (· + 1)

/-- Smallest index `≥ 1` at which `pat` occurs in `l` (the lazy `(.+?)` must
consume at least one character before the next marker). -/
def occIdxGe1 (pat : List Char) (l : List Char) : Option Nat :=
  match l with
  | [] => none
  | _ :: rest => (occIdx pat rest).map (· + 1)

/-- The group of `---LINKEDIN---\s*(.+?)\s*---TWITTER---` after the
`---LINKEDIN---` marker, already stripped: the text up to the first
`---TWITTER---` occurrence that leaves at least one group character. -/
def strat1Body (a : List Char) : Option (List Char) :=
  match occIdx twMarker a with
  | none => none
  | some 0 =>
    match occIdxGe1 twMarker a with
    | none => none
    | some j => some (Py.strip (a.take j))
  | some j => some (Py.strip (a.take j))

/-- The group of `---TWITTER---\s*(.+?)\s*(?:---END---|$)` after the
`---TWITTER---` marker, stripped: the text up to the first usable
`---END---`, or the whole remainder. -/
def strat1TwBody (a : List Char) : Option (List Char) :=
  if a = [] then none
  else
    match occIdx endMarker a with
    | none => some (Py.strip a)
    | some 0 =>
      match occIdxGe1 endMarker a with
      | none => some (Py.strip a)
      | some j => some (Py.strip (a.take j))
    | some j => some (Py.strip (a.take j))

/-- The group of `LINKEDIN:\s*(.+?)(?=TWITTER:|$)` after the label, stripped:
leading whitespace is absorbed by `\s*`, then the text up to the first usable
`TWITTER:` lookahead position or the end. -/
def strat2LiBody (a : List Char) : Option (List Char) :=
  if a = [] then none
  else
    let b := a.drop (a.takeWhile Py.isSpace).length
    if b = [] then some []
    else
      match occIdxGe1 twLabel b with
      | some j => some (Py.strip (b.take j))
      | none => some (Py.strip b)

/-- The group of `TWITTER:\s*(.+?)$` after the label, stripped. -/
def strat2TwBody (a : List Char) : Option (List Char) :=
  if a = [] then none else some (Py.strip a)

/-- Leftmost-match scanner for a pattern with a fallible continuation: try
the literal at each position, moving one character right when the rest of the
pattern cannot complete there (as the regex engine does). -/
def scanPat (pat : List Char) (body : List Char → Option (List Char)) :
    List Char → Option (List Char)
  | [] => none
  | l@(_ :: rest) =>
    if Py.startsWith pat l then
      match body (l.drop pat.length) with
      | some g => some g
      | none => scanPat pat body rest
    else scanPat pat body rest

def strat1Li (raw : List Char) : Option (List Char) := scanPat liMarker strat1Body raw

def strat1Tw (raw : List Char) : Option (List Char) := scanPat twMarker strat1TwBody raw

def strat2Li (raw : List Char) : Option (List Char) := scanPat liLabel strat2LiBody raw

def strat2Tw (raw : List Char) : Option (List Char) := scanPat twLabel strat2TwBody raw

/-- Case-insensitive `startsWith` (pattern given lower-case), for the
`re.IGNORECASE` strategy-3 patterns. -/
def ciStarts (pat : List Char) (l : List Char) : Bool :=
  Py.startsWith pat (Py.lower l)

/-- ASCII word character, for the `\b` boundary in `\*\*X\b`. -/
def isWordChar (c : Char) : Bool := c.isAlphanum || c = '_'

/-- Smallest index at which `\*\*X\b` matches (case-insensitively). -/
def occIdxXB : List Char → Option Nat
  | [] => none
  | l@(_ :: rest) =>
    if ciStarts "**x".data l &&
        (match l.drop 3 with
         | [] => true
         | c :: _ => !isWordChar c) then some 0
    else (occIdxXB rest).map (· + 1)

/-- Smallest index at which `pat` occurs case-insensitively. -/
def occIdxCI (pat : List Char) : List Char → Option Nat
  | [] => if ciStarts pat [] then some 0 else none
  | l@(_ :: rest) =>
    if ciStarts pat l then some 0
    else (occIdxCI pat rest).map (· + 1)

def minOpt : Option Nat → Option Nat → Option Nat
  | none, b => b
  | some a, none => some a
  | some a, some b => some (min a b)

/-- The lookahead of strategy 3's LinkedIn pattern: the first position `≥ 1`
where `\*\*Twitter` or `\*\*X\b` matches. -/
def strat3Look (r : List Char) : Option Nat :=
  match r with
  | [] => none
  | _ :: rest =>
    minOpt ((occIdxCI "**twitter".data rest).map (· + 1))
      ((occIdxXB rest).map (· + 1))

/-- After `\*\*LinkedIn` (case-insensitive): `[^*]*\*\*[:\s]*` then the lazy
group up to the lookahead or the end, stripped. -/
def strat3LiBody (a : List Char) : Option (List Char) :=
  match a.dropWhile (· ≠ '*') with
  | '*' :: '*' :: r2 =>
    let k := (r2.takeWhile fun c => c = ':' || Py.isSpace c).length
    let r3 := r2.drop k
    if r3 = [] then
      if k > 0 then some [] else none
    else
      match strat3Look r3 with
      | some j => some (Py.strip (r3.take j))
      | none => some (Py.strip r3)
  | _ => none

/-- After `\*\*(?:Twitter|X)` (case-insensitive): `[^*]*\*\*[:\s]*` then the
lazy group up to the end, stripped. -/
def strat3TwBody (a : List Char) : Option (List Char) :=
  match a.dropWhile (· ≠ '*') with
  | '*' :: '*' :: r2 =>
    let k := (r2.takeWhile fun c => c = ':' || Py.isSpace c).length
    let r3 := r2.drop k
    if r3 = [] then
      if k > 0 then some [] else none
    else some (Py.strip r3)
  | _ => none

/-- Scanner for `\*\*LinkedIn[^*]*\*\*[:\s]*(.+?)(?=\*\*Twitter|\*\*X\b|$)`. -/
def strat3Li : List Char → Option (List Char)
  | [] => none
  | l@(_ :: rest) =>
    if ciStarts "**linkedin".data l then
      match strat3LiBody (l.drop 10) with
      | some g => some g
      | none => strat3Li rest
    else strat3Li rest

/-- Scanner for `\*\*(?:Twitter|X)[^*]*\*\*[:\s]*(.+?)$`. -/
def strat3Tw : List Char → Option (List Char)
  | [] => none
  | l@(_ :: rest) =>
    if ciStarts "**twitter".data l then
      match strat3TwBody (l.drop 9) with
      | some g => some g
      | none => strat3Tw rest
    else if ciStarts "**x".data l then
      match strat3TwBody (l.drop 3) with
      | some g => some g
      | none => strat3Tw rest
    else strat3Tw rest

/-- `re.sub(r"\*\*([^*]+)\*\*", r"\1", text)`: left-to-right scan, each
`**run**` with a non-empty star-free run replaced by the run.  Structural
fuel recursion (every step consumes at least one character, so fuel equal to
the length never runs out); keeps the definition kernel-computable. -/
def subBoldF : Nat → List Char → List Char
  | 0, l => l
  | _ + 1, [] => []
  | _ + 1, [c] => [c]
  | fuel + 1, c1 :: c2 :: rest =>
    if c1 = '*' ∧ c2 = '*' then
      if rest.takeWhile (· ≠ '*') = [] then c1 :: subBoldF fuel (c2 :: rest)
      else
        match rest.dropWhile (· ≠ '*') with
        | '*' :: '*' :: rest2 => rest.takeWhile (· ≠ '*') ++ subBoldF fuel rest2
        | _ => c1 :: subBoldF fuel (c2 :: rest)
    else c1 :: subBoldF fuel (c2 :: rest)

def subBold (l : List Char) : List Char := subBoldF l.length l

/-- `re.sub(r"\*([^*]+)\*", r"\1", text)` (same fuel scheme). -/
def subItalicF : Nat → List Char → List Char
  | 0, l => l
  | _ + 1, [] => []
  | fuel + 1, c1 :: rest =>
    if c1 = '*' then
      if rest.takeWhile (· ≠ '*') = [] then c1 :: subItalicF fuel rest
      else
        match rest.dropWhile (· ≠ '*') with
        | '*' :: rest2 => rest.takeWhile (· ≠ '*') ++ subItalicF fuel rest2
        | _ => c1 :: subItalicF fuel rest
    else c1 :: subItalicF fuel rest

def subItalic (l : List Char) : List Char := subItalicF l.length l

/-- `re.sub(r"\n{3,}", "\n\n", text)`: a run of three or more newlines
becomes two (same fuel scheme). -/
def collapseNLF : Nat → List Char → List Char
  | 0, l => l
  | _ + 1, [] => []
  | fuel + 1, c :: rest =>
    if c = '\n' then
      if 1 + (rest.takeWhile (· = '\n')).length ≥ 3 then
        '\n' :: '\n' :: collapseNLF fuel (rest.drop (rest.takeWhile (· = '\n')).length)
      else '\n' :: collapseNLF fuel rest
    else c :: collapseNLF fuel rest

def collapseNL (l : List Char) : List Char := collapseNLF l.length l

def isQuoteMark (c : Char) : Bool := c = '"' || c = '\''

/-- `_clean_post` (post_parser.py lines 107-118): strip `**`/`*` emphasis,
leading/trailing quotes, collapse blank-line runs, strip whitespace. -/
def cleanPost (text : List Char) : List Char :=
  if text = [] then []
  else Py.strip (collapseNL (Py.stripChars isQuoteMark (subItalic (subBold text))))

/-- Python `raw.split("\n\n")` (non-overlapping, left to right). -/
def splitNN : List Char → List (List Char)
  | [] => [[]]
  | [c] => [[c]]
  | c1 :: c2 :: rest =>
    if c1 = '\n' ∧ c2 = '\n' then [] :: splitNN rest
    else
      match splitNN (c2 :: rest) with
      | [] => [[c1]]
      | h :: t => (c1 :: h) :: t

/-- `"\n\n".join(...)`. -/
def joinNN : List (List Char) → List Char
  | [] => []
  | [x] => x
  | x :: xs => x ++ '\n' :: '\n' :: joinNN xs

/-- `[p.strip() for p in raw_output.split("\n\n") if p.strip()]`. -/
def paragraphsOf (raw : List Char) : List (List Char) :=
  ((splitNN raw).map Py.strip).filter (· ≠ [])

/-- Python `s.rfind(pat)` restricted to an occurrence; `none` for Python's
`-1`. -/
def rfindSub (pat : List Char) : List Char → Option Nat
  | [] => none
  | l@(_ :: rest) =>
    match rfindSub pat rest with
    | some j => some (j + 1)
    | none => if Py.startsWith pat l then some 0 else none

/-- The short-form length ceiling (post_parser.py lines 91-98): cut at a late
sentence boundary inside the first 277 characters when one exists past index
200, otherwise hard-truncate to 277 characters plus an ellipsis. -/
def enforceLimit (tw : List Char) : List Char :=
  if tw.length > 280 then
    match rfindSub ". ".data (tw.take 277) with
    | some cut =>
      if cut > 200 then tw.take (cut + 1) else tw.take 277 ++ "...".data
    | none => tw.take 277 ++ "...".data
  else tw

/-- Strategy 4 (post_parser.py lines 70-85): when no earlier strategy
produced anything, split into paragraphs; a short last paragraph becomes the
tweet and the rest the LinkedIn post, otherwise the whole output serves as
both (tweet truncated to 280). -/
def strat4 (raw : List Char) : List Char × List Char :=
  let paragraphs := paragraphsOf raw
  if paragraphs.length ≥ 2 then
    let last := paragraphs.getLastD []
    if last.length < 300 then
      (joinNN paragraphs.dropLast, last.take 280)
    else (raw, raw.take 280)
  else (raw, raw.take 280)

structure ParsedPosts where
  linkedin_post : String
  twitter_post : String
  deriving Repr, DecidableEq

/-- `parse_ai_output` (post_parser.py lines 19-104) on char lists.  The four
strategies fill whichever of the two posts is still empty, in source order;
then both posts are cleaned and the short-form ceiling enforced. -/
def parseAiList (raw : List Char) : List Char × List Char :=
  if raw = [] then ([], [])
  else
    let li1 := (strat1Li raw).getD []
    let tw1 := (strat1Tw raw).getD []
    let li2 := if li1 = [] then (strat2Li raw).getD [] else li1
    let tw2 := if tw1 = [] then (strat2Tw raw).getD [] else tw1
    let li3 := if li2 = [] then (strat3Li raw).getD [] else li2
    let tw3 := if tw2 = [] then (strat3Tw raw).getD [] else tw2
    let posts := if li3 = [] ∧ tw3 = [] then strat4 raw else (li3, tw3)
    (cleanPost posts.1, enforceLimit (cleanPost posts.2))

def parse_ai_output (raw : String) : ParsedPosts :=
  let r := parseAiList raw.data
  ⟨String.mk r.1, String.mk r.2⟩

/-- A character that survives every `_clean_post` stage: not whitespace, not
an emphasis star, not a quote. -/
def goodChar (c : Char) : Bool :=
  !Py.isSpace c && c ≠ '*' && c ≠ '"' && c ≠ '\''

/-- None of the marker substrings any of the three pattern strategies can
fire on is present (the starred markers checked case-insensitively). -/
def noMarkers (raw : List Char) : Bool :=
  !Py.containsSub liMarker raw && !Py.containsSub twMarker raw &&
  !Py.containsSub liLabel raw && !Py.containsSub twLabel raw &&
  !Py.containsSub "**linkedin".data (Py.lower raw) &&
  !Py.containsSub "**twitter".data (Py.lower raw) &&
  !Py.containsSub "**x".data (Py.lower raw)

end PostParser

namespace Validator

/-! ## `app/pipeline/post_validator.py`

`validate_posts` runs hard-reject checks (each appends an error, docks the
quality score and clears `is_valid`) followed by soft quality checks (score
only).  The embedding keeps `is_valid` and `quality_score` (an exact integer;
every Python float arithmetic step here is on small integers, hence exact);
the error/warning string lists carry no further information and are not
modelled.  Each compiled regex is translated into an explicit scanner,
documented at its definition. -/

/-- A character of `\S` (not whitespace). -/
def nonSpaceAt (l : List Char) (n : Nat) : Bool :=
  match l.drop n with
  | c :: _ => !Py.isSpace c
  | [] => false

/-- One position of `_URL_RE = https?://\S+|www\.\S+|bit\.ly/\S+`
(case-insensitive). -/
def urlAt (l : List Char) : Bool :=
  (Py.startsWith "http://".data (Py.lower l) && nonSpaceAt l 7) ||
  (Py.startsWith "https://".data (Py.lower l) && nonSpaceAt l 8) ||
  (Py.startsWith "www.".data (Py.lower l) && nonSpaceAt l 4) ||
  (Py.startsWith "bit.ly/".data (Py.lower l) && nonSpaceAt l 7)

def scanAny (p : List Char → Bool) : List Char → Bool
  | [] => p []
  | l@(_ :: rest) => p l || scanAny p rest

def containsUrl (l : List Char) : Bool := scanAny urlAt l

def isDigitChar (c : Char) : Bool := '0' ≤ c ∧ c ≤ '9'

def isHexLower (c : Char) : Bool :=
  isDigitChar c || (('a' ≤ c ∧ c ≤ 'f') : Bool) || (('A' ≤ c ∧ c ≤ 'F') : Bool)

/-- `\d+;` (at least one digit, then a semicolon). -/
def digitsSemi (l : List Char) : Bool :=
  match l.takeWhile isDigitChar, l.dropWhile isDigitChar with
  | [], _ => false
  | _ :: _, ';' :: _ => true
  | _, _ => false

def hexSemi (l : List Char) : Bool :=
  match l.takeWhile isHexLower, l.dropWhile isHexLower with
  | [], _ => false
  | _ :: _, ';' :: _ => true
  | _, _ => false

/-- One position of `_HTML_ENTITY_RE = &(?:amp|lt|gt|quot|nbsp|#\d+|#x[0-9a-f]+);`
(case-insensitive). -/
def entityAt (l : List Char) : Bool :=
  match l with
  | '&' :: rest =>
    Py.startsWith "amp;".data (Py.lower rest) ||
    Py.startsWith "lt;".data (Py.lower rest) ||
    Py.startsWith "gt;".data (Py.lower rest) ||
    Py.startsWith "quot;".data (Py.lower rest) ||
    Py.startsWith "nbsp;".data (Py.lower rest) ||
    (match rest with
     | '#' :: r2 =>
       digitsSemi r2 ||
       (match r2 with
        | x :: r3 => (x = 'x' || x = 'X') && hexSemi r3
        | [] => false)
     | _ => false)
  | _ => false

def containsEntity (l : List Char) : Bool := scanAny entityAt l

def quoteChar (c : Char) : Bool := c = '"' || c = '\''

/-- One position of `_HTML_DETECT_RE = <[a-zA-Z/][^>]*>?|(?:class|src|alt|href|style)=["\']`
(case-insensitive; the first alternative matches as soon as `<` is followed
by a letter or slash, since `[^>]*>?` may be empty). -/
def htmlAt (l : List Char) : Bool :=
  (match l with
   | '<' :: c :: _ => c.isAlpha || c = '/'
   | _ => false) ||
  (["class=", "src=", "alt=", "href=", "style="].any fun a =>
    Py.startsWith a.data (Py.lower l) &&
      (match l.drop a.length with
       | c :: _ => quoteChar c
       | [] => false))

def containsHtml (l : List Char) : Bool := scanAny htmlAt l

/-- The conversational/refusal phrases of check 4. -/
def conversationalPhrases : List String :=
  ["i cannot", "i apologize", "i'm sorry", "as an ai",
   "i don't have", "i can't", "unable to", "error occurred",
   "here is", "here's a", "sure, i'll", "certainly!", "of course!"]

def hasConversational (li tw : List Char) : Bool :=
  conversationalPhrases.any fun p =>
    Py.containsSub p.data (Py.lower li) || Py.containsSub p.data (Py.lower tw)

def isWordCh (c : Char) : Bool := c.isAlphanum || c = '_'

/-- Scanner for `\bWORD` patterns (case-insensitive): the pattern matches at
a position whose preceding character is not a word character. -/
def boundaryHitAux (pat : List Char) : Option Char → List Char → Bool
  | prev, l@(c :: rest) =>
    ((match prev with
      | none => true
      | some p => !isWordCh p) && Py.startsWith pat (Py.lower l)) ||
    boundaryHitAux pat (some c) rest
  | prev, [] =>
    (match prev with
     | none => true
     | some p => !isWordCh p) && Py.startsWith pat []

def boundaryHit (pat : List Char) (l : List Char) : Bool :=
  boundaryHitAux pat none l

/-- Scanner for the `\[Word\b` patterns: the literal bracket and word, with a
word boundary after. -/
def bracketHit (pat : List Char) (l : List Char) : Bool :=
  scanAny (fun s =>
    Py.startsWith pat (Py.lower s) &&
      (match s.drop pat.length with
       | c :: _ => !isWordCh c
       | [] => true)) l

/-- Check 5's framework labels on the LinkedIn post. -/
def hasSectionLabel (li : List Char) : Bool :=
  (["hook:", "context:", "insight:", "impact:", "action:", "engagement:",
    "cta:"].any fun p => boundaryHit p.data li) ||
  (["[write", "[insert", "[add", "[your"].any fun p => bracketHit p.data li)

/-- Model of `str.isprintable` (exact on ASCII; the common non-printable
Unicode ranges — C0/C1 controls, the Unicode line/paragraph separators, the
no-break space — for the rest). -/
def pyPrintable (c : Char) : Bool :=
  !(c.toNat < 0x20 || c.toNat = 0x7f ||
    (0x80 ≤ c.toNat && c.toNat ≤ 0x9f) ||
    c.toNat = 0xa0 || c.toNat = 0xad ||
    c.toNat = 0x2028 || c.toNat = 0x2029 || c.toNat = 0x200b)

def isConsonant (c : Char) : Bool :=
  "bcdfghjklmnpqrstvwxyz".data.contains (Py.lowerChar c)

/-- Longest run of consonants reaches 8 (`[bcdfghjklmnpqrstvwxyz]{8,}`,
case-insensitive). -/
def consonantRun8 (l : List Char) : Bool :=
  scanAny (fun s => (s.takeWhile isConsonant).length ≥ 8) l

/-- Count of `\b[a-zA-Z]{3,}\b` matches: maximal alphabetic runs of length at
least 3 whose neighbours are not word characters (fuel recursion, fuel bounded
by the length, as each step consumes at least one character). -/
def realWordCountF : Nat → Option Char → List Char → Nat
  | 0, _, _ => 0
  | _ + 1, _, [] => 0
  | fuel + 1, prev, c :: rest =>
    if c.isAlpha && (match prev with | none => true | some p => !isWordCh p) then
      let run := (c :: rest).takeWhile Char.isAlpha
      let rest2 := (c :: rest).drop run.length
      let ok := run.length ≥ 3 &&
        (match rest2 with
         | d :: _ => !isWordCh d
         | [] => true)
      (if ok then 1 else 0) + realWordCountF fuel (some (run.getLastD c)) rest2
    else realWordCountF fuel (some c) rest

def realWordCount (l : List Char) : Nat := realWordCountF l.length none l

/-- `re.split(r'[.!?\n]', text)`. -/
def splitSentChars : List Char → List (List Char)
  | [] => [[]]
  | c :: rest =>
    let r := splitSentChars rest
    if c = '.' || c = '!' || c = '?' || c = '\n' then [] :: r
    else
      match r with
      | [] => [[c]]
      | h :: t => (c :: h) :: t

def dedupCount (l : List (List Char)) : Nat := l.dedup.length

/-- `_is_gibberish` (post_validator.py lines 297-320). -/
def isGibberish (text : List Char) : Bool :=
  let printable := (text.filter fun c =>
    pyPrintable c || c = '\n' || c = '\x0d' || c = '\t').length
  if text.length > 0 && decide (20 * printable < 17 * text.length) then true
  else if consonantRun8 text then true
  else if text.length > 100 && realWordCount text < 5 then true
  else
    let sentences := ((splitSentChars text).map Py.strip).filter
      fun s => s.length > 20
    if sentences.length > 3 && decide (2 * dedupCount sentences < sentences.length)
    then true else false

/-- `_check_english`: more than three characters from the listed non-Latin
script ranges reject the post. -/
def nonLatinCount (text : List Char) : Nat :=
  (text.filter fun c =>
    (0x4e00 ≤ c.toNat && c.toNat ≤ 0x9fff) ||
    (0x3040 ≤ c.toNat && c.toNat ≤ 0x309f) ||
    (0x30a0 ≤ c.toNat && c.toNat ≤ 0x30ff) ||
    (0xac00 ≤ c.toNat && c.toNat ≤ 0xd7af) ||
    (0x600 ≤ c.toNat && c.toNat ≤ 0x6ff) ||
    (0x900 ≤ c.toNat && c.toNat ≤ 0x97f) ||
    (0xe00 ≤ c.toNat && c.toNat ≤ 0xe7f) ||
    (0x400 ≤ c.toNat && c.toNat ≤ 0x4ff)).length

def isEnglish (text : List Char) : Bool := !(nonLatinCount text > 3)

/-- `re.sub(r'#\w+', '', text)` (fuel recursion, fuel bounded by length). -/
def stripHashtagsF : Nat → List Char → List Char
  | 0, l => l
  | _ + 1, [] => []
  | fuel + 1, c :: rest =>
    if c = '#' && !(rest.takeWhile isWordCh).isEmpty then
      stripHashtagsF fuel (rest.drop (rest.takeWhile isWordCh).length)
    else c :: stripHashtagsF fuel rest

def stripHashtags (l : List Char) : List Char := stripHashtagsF l.length l

/-- The emoji ranges stripped before grammar analysis
(`[\U0001F300-\U0001F9FF☀-⛿✀-➿]`). -/
def isEmojiStrip (c : Char) : Bool :=
  (0x1F300 ≤ c.toNat && c.toNat ≤ 0x1F9FF) ||
  (0x2600 ≤ c.toNat && c.toNat ≤ 0x26FF) ||
  (0x2700 ≤ c.toNat && c.toNat ≤ 0x27BF)

def grammarClean (text : List Char) : List Char :=
  (stripHashtags text).filter fun c => !isEmojiStrip c

/-- `re.findall(r'\b(\w+)\s+\1\b', clean, re.IGNORECASE)` is non-empty: two
consecutive word tokens separated by whitespace and equal up to case (the
backreference plus boundaries force exactly this token-level equality). -/
def repWordF : Nat → List Char → Bool
  | 0, _ => false
  | _ + 1, [] => false
  | fuel + 1, c :: rest =>
    if isWordCh c then
      let w1 := (c :: rest).takeWhile isWordCh
      let after := (c :: rest).drop w1.length
      let s := after.takeWhile Py.isSpace
      let w2 := (after.drop s.length).takeWhile isWordCh
      if !s.isEmpty && !w2.isEmpty && Py.lower w1 = Py.lower w2 then true
      else repWordF fuel after
    else repWordF fuel rest

def repeatedWordHit (l : List Char) : Bool := repWordF l.length l

/-- `re.split(r'[.!?]\s', clean)` (the two matched characters are consumed). -/
def splitSentWs : List Char → List (List Char)
  | [] => [[]]
  | [c] => [[c]]
  | c :: s :: rest =>
    if (c = '.' || c = '!' || c = '?') && Py.isSpace s then [] :: splitSentWs rest
    else
      match splitSentWs (s :: rest) with
      | [] => [[c]]
      | h :: t => (c :: h) :: t

/-- `len(s.split())`: number of maximal non-whitespace runs. -/
def countWordsAux : Bool → List Char → Nat
  | _, [] => 0
  | inWord, c :: rest =>
    if Py.isSpace c then countWordsAux false rest
    else (if inWord then 0 else 1) + countWordsAux true rest

def countWords (l : List Char) : Nat := countWordsAux false l

/-- Non-overlapping count of `[.!?,][A-Z]` matches. -/
def countPunctCap : List Char → Nat
  | [] => 0
  | [_] => 0
  | a :: b :: rest =>
    if (a = '.' || a = '!' || a = '?' || a = ',') && ('A' ≤ b ∧ b ≤ 'Z' : Bool) then
      1 + countPunctCap rest
    else countPunctCap (b :: rest)

def mojibakePatterns : List String :=
  ["Ã¢", "â€™", "â€\"", "â€œ", "â€\x9d", "Ã©", "Ã¨", "Ã¼"]

def codeArtifacts : List String :=
  ["class=", "style=", "src=", "alt=", "href=", "width=", "height="]

def isAsciiAlpha (c : Char) : Bool :=
  ('A' ≤ c ∧ c ≤ 'Z' : Bool) || ('a' ≤ c ∧ c ≤ 'z' : Bool)

def isAsciiUpper (c : Char) : Bool := ('A' ≤ c ∧ c ≤ 'Z' : Bool)

/-- `_check_grammar` issue count (each numbered check contributes at most one
issue; `upper_ratio > 0.40` is the exact rational comparison, matching the
float comparison on the magnitudes involved). -/
def grammarIssueCount (text : List Char) : Nat :=
  let clean := grammarClean text
  (if repeatedWordHit clean then 1 else 0) +
  (if (splitSentWs clean).any (fun s => countWords s > 60) then 1 else 0) +
  (if countPunctCap clean > 2 then 1 else 0) +
  (if clean.count '(' ≠ clean.count ')' then 1 else 0) +
  (if clean.count '[' ≠ clean.count ']' then 1 else 0) +
  (if !(clean.filter isAsciiAlpha).isEmpty &&
      5 * (clean.filter isAsciiUpper).length > 2 * (clean.filter isAsciiAlpha).length
    then 1 else 0) +
  (if mojibakePatterns.any (fun p => Py.containsSub p.data text) then 1 else 0) +
  (if codeArtifacts.any (fun p => Py.containsSub p.data text) then 1 else 0)

structure ValidationResult where
  is_valid : Bool
  quality_score : Int
  deriving Repr, DecidableEq

/-- One hard-reject check: on a hit the score is docked and the pair marked
invalid (the appended error string is not modelled). -/
def applyCheck (r : ValidationResult) (cond : Bool) (penalty : Int) :
    ValidationResult :=
  if cond then { is_valid := false, quality_score := r.quality_score - penalty }
  else r

/-- One soft check: the score is docked, validity untouched. -/
def applySoft (r : ValidationResult) (cond : Bool) (penalty : Int) :
    ValidationResult :=
  if cond then { r with quality_score := r.quality_score - penalty } else r

/-- Check 9's length-ceiling condition
(`if twitter_post and len(twitter_post) > 280`). -/
def twitterTooLong (t : List Char) : Bool := !t.isEmpty && t.length > 280

/-- `validate_posts` (post_validator.py lines 79-223): the numbered checks in
source order. -/
def validate_posts (linkedin_post twitter_post : String)
    (hashtags : List String := []) : ValidationResult :=
  let l := linkedin_post.data
  let t := twitter_post.data
  let r0 : ValidationResult := ⟨true, 100⟩
  -- 1. HTML tags/attributes
  let r1 := applyCheck (applyCheck r0 (!l.isEmpty && containsHtml l) 50)
    (!t.isEmpty && containsHtml t) 50
  -- 2. URLs/links
  let r2 := applyCheck (applyCheck r1 (!l.isEmpty && containsUrl l) 40)
    (!t.isEmpty && containsUrl t) 40
  -- 3. HTML entities
  let r3 := applyCheck (applyCheck r2 (!l.isEmpty && containsEntity l) 30)
    (!t.isEmpty && containsEntity t) 30
  -- 4. conversational/error responses
  let r4 := applyCheck r3 (hasConversational l t) 50
  -- 5. framework section labels (LinkedIn only)
  let r5 := applyCheck r4 (!l.isEmpty && hasSectionLabel l) 30
  -- 6. gibberish
  let r6 := applyCheck (applyCheck r5 (!l.isEmpty && isGibberish l) 30)
    (!t.isEmpty && isGibberish t) 30
  -- 7. language
  let r7 := applyCheck (applyCheck r6 (!l.isEmpty && !isEnglish l) 40)
    (!t.isEmpty && !isEnglish t) 40
  -- 8. LinkedIn length and word count
  let r8a := applyCheck r7 (l.isEmpty || (Py.strip l).length < 50) 30
  let liWords := countWords l
  let r8b := applyCheck r8a (liWords < 50) 20
  let r8 := applySoft r8b (!(liWords < 50) && liWords > 500) 5
  -- 9. Twitter length
  let r9a := applyCheck r8 (t.isEmpty || (Py.strip t).length < 20) 30
  let r9 := applyCheck r9a (twitterTooLong t) 20
  -- 10. hashtags
  let r10 := applySoft (applySoft r9 (!l.isEmpty && !l.contains '#') 5)
    (!t.isEmpty && !t.contains '#') 5
  -- 11. emoji
  let hasEmoji := l.any fun c => 0x1F300 ≤ c.toNat && c.toNat ≤ 0x1F9FF
  let r11 := applySoft r10 (!hasEmoji && !l.isEmpty) 3
  -- 12. grammar
  let r12 := applySoft (applySoft r11 (!l.isEmpty)
      (min (3 * (grammarIssueCount l : Int)) 15))
    (!t.isEmpty) (min (3 * (grammarIssueCount t : Int)) 10)
  ⟨r12.is_valid, max 0 r12.quality_score⟩

end Validator

namespace Fallback

/-- fallback_templates.py lines 11-61. -/
def INFINITEO_LINKEDIN_TEMPLATES : List String := [
  "{emoji} {title} - This Changes EVERYTHING!\n\n\n\nMost people aren't paying attention to this. But if you're in business, you NEED to know what just happened.\n\n\n\n{description}\n\n\n\nHere's why this is a GAME-CHANGER:\n\n{bullet} It fundamentally shifts how businesses operate\n{bullet} Companies that adapt NOW will dominate their market\n{bullet} Manual workflows just became obsolete overnight\n\n\n\nWhat this solves:\n\n- Businesses wasting hours on repetitive tasks\n- Teams drowning in manual processes\n- Organizations falling behind competitors who automate\n\n\n\nAt Infiniteo, we help businesses turn exactly these breakthroughs into real automation. We architect end-to-end systems that eliminate manual work and let your team focus on what actually moves the needle.\n\n\n\nThis isn't just news. It's the future arriving ahead of schedule.\n\n\n\nWho else sees how BIG this is? Drop a comment below! {down}\n\n\n\n#Infiniteo #Automation #AI #BusinessAutomation #DigitalTransformation #WorkflowAutomation",
  "{emoji} BREAKING: {title}\n\n\n\nI just came across something that every business leader needs to see.\n\n\n\n{description}\n\n\n\nThe implications are MASSIVE:\n\n{bullet} Efficiency gains that were impossible just months ago\n{bullet} A completely new approach to business operations\n{bullet} The automation gap between leaders and laggards just widened\n\n\n\nWhat does this solve for YOUR business?\n\n- Eliminates bottlenecks in your workflow\n- Frees your team to focus on strategy, not busywork\n- Gives you a competitive edge that compounds over time\n\n\n\nThis is exactly why we built Infiniteo - to help organizations harness these breakthroughs BEFORE their competitors do. We don't just follow trends. We turn them into operational advantage.\n\n\n\nThe question isn't IF you should automate. It's how fast you can move.\n\n\n\nWhat's the #1 manual process holding YOUR business back? Let's discuss! {down}\n\n\n\n#Infiniteo #Automation #BusinessTransformation #AI #ProcessOptimization"
]

def INFINITEO_TWITTER_TEMPLATES : List String := [
  "{emoji} {short_title}\n\nThis changes EVERYTHING for business automation. The companies that move NOW will dominate.\n\n#Infiniteo #Automation #AI",
  "{emoji} BREAKING: {short_title}\n\nManual workflows just became obsolete. The future is HERE.\n\n#Infiniteo #BusinessAutomation",
  "{emoji} {short_title}\n\nThe automation revolution just accelerated. Are you ready?\n\n#Infiniteo #AI #Automation"
]

def YOUROPS_LINKEDIN_TEMPLATES : List String := [
  "{emoji} {title} - Ops Teams, Pay Attention!\n\n\n\nThis is a BIG deal for anyone running production infrastructure.\n\n\n\n{description}\n\n\n\nWhy this matters NOW:\n\n{bullet} Reliability standards just got raised\n{bullet} Teams that adopt this will see fewer incidents\n{bullet} The gap between good ops and great ops just widened\n\n\n\nWhat this solves:\n\n- Alert fatigue and incident overload\n- Inconsistent deployment pipelines\n- Infrastructure that doesn't scale with your business\n\n\n\nAt YourOps, we help teams build operational foundations that actually hold up under pressure. We've seen firsthand how the right systems turn chaotic ops into calm, predictable operations.\n\n\n\nThe best ops teams don't just react. They build systems that prevent problems before they happen.\n\n\n\nWhat's the biggest ops challenge your team is facing right now? {down}\n\n\n\n#YourOps #DevOps #ITOps #SRE #CloudOps #Infrastructure #OperationalExcellence",
  "{emoji} BREAKING: {title}\n\n\n\nEvery SRE and ops engineer needs to see this.\n\n\n\n{description}\n\n\n\nThe implications are huge:\n\n{bullet} A new standard for operational excellence\n{bullet} Better reliability with less manual toil\n{bullet} Smarter incident response and prevention\n\n\n\nAt YourOps, we believe great operations is the backbone of every successful tech organization. This is exactly the kind of shift that separates world-class ops from the rest.\n\n\n\nHow is your team adapting to changes like this? {down}\n\n\n\n#YourOps #DevOps #SRE #CloudOps #PlatformEngineering #Kubernetes"
]

def YOUROPS_TWITTER_TEMPLATES : List String := [
  "{emoji} {short_title}\n\nReliability isn't luck. It's engineering. This changes the game for ops teams.\n\n#YourOps #DevOps #SRE",
  "{emoji} BREAKING: {short_title}\n\nOps teams, take note. This is BIG.\n\n#YourOps #ITOps #CloudOps",
  "{emoji} {short_title}\n\nThe future of infrastructure just shifted. Are your ops ready?\n\n#YourOps #DevOps #Infrastructure"
]

/-- `EMOJIS.get(project_id, ["📢"])`. -/
def emojisFor (project_id : String) : List String :=
  if project_id = "infiniteo" then ["🚀", "⚡", "🎯", "💡", "🔗", "🏗️", "🔥", "🤯", "💥"]
  else if project_id = "yourops" then ["🔧", "⚙️", "📊", "🛡️", "🔍", "💻", "🔥", "⚡"]
  else ["📢"]

def BULLET_EMOJIS : List String := ["•", "🔹", "⚡", "✅", "🎯"]

def DOWN_EMOJIS : List String := ["👇", "⬇️"]

/-- `random.choice(xs)` with the random draw made explicit as an index oracle;
`none` is the `IndexError` raised on an empty sequence. -/
def pyChoice (xs : List α) (i : Nat) : Option α := xs[i % xs.length]?

/-- `str.format(**vars)` for templates whose replacement fields are plain
identifiers, as here: `\x7b\x7b`/`\x7d\x7d` unescape, `\x7bname\x7d` is
substituted, an unknown name is a KeyError and a stray brace a ValueError.
Fuel recursion; the wrapper passes the input length, which every branch
respects since each step consumes at least one character. -/
def pyFormatF : Nat → List (String × String) → List Char → Except String (List Char)
  | 0, _, l => .ok l
  | _ + 1, _, [] => .ok []
  | fuel + 1, vars, c :: rest =>
    if c = '{' then
      if rest.head? = some '{' then
        match pyFormatF fuel vars rest.tail with
        | .ok r => .ok ('{' :: r)
        | .error e => .error e
      else
        let key := rest.takeWhile fun d => d ≠ '}' && d ≠ '{'
        let rest2 := rest.drop key.length
        if rest2.head? = some '}' then
          match vars.lookup (String.mk key) with
          | some v =>
            match pyFormatF fuel vars rest2.tail with
            | .ok r => .ok (v.data ++ r)
            | .error e => .error e
          | none => .error "KeyError"
        else .error "ValueError"
    else if c = '}' then
      if rest.head? = some '}' then
        match pyFormatF fuel vars rest.tail with
        | .ok r => .ok ('}' :: r)
        | .error e => .error e
      else .error "ValueError"
    else
      match pyFormatF fuel vars rest with
      | .ok r => .ok (c :: r)
      | .error e => .error e

def pyFormat (vars : List (String × String)) (l : List Char) :
    Except String (List Char) :=
  pyFormatF l.length vars l

/-- Value-independent success predicate for `pyFormatF`: the brace structure is
well formed and every field name is among `keys`. -/
def fmtOkF : Nat → List String → List Char → Bool
  | 0, _, _ => true
  | _ + 1, _, [] => true
  | fuel + 1, keys, c :: rest =>
    if c = '{' then
      if rest.head? = some '{' then fmtOkF fuel keys rest.tail
      else
        let key := rest.takeWhile fun d => d ≠ '}' && d ≠ '{'
        let rest2 := rest.drop key.length
        if rest2.head? = some '}' then
          keys.contains (String.mk key) && fmtOkF fuel keys rest2.tail
        else false
    else if c = '}' then
      if rest.head? = some '}' then fmtOkF fuel keys rest.tail
      else false
    else fmtOkF fuel keys rest

def fmtOk (keys : List String) (l : List Char) : Bool := fmtOkF l.length keys l

def fmtKeys : List String :=
  ["emoji", "title", "short_title", "description", "bullet", "down"]

/-- The final Twitter truncation
(`if len(twitter_post) > 280: twitter_post = twitter_post[:277] + "..."`). -/
def truncTw (tw : List Char) : List Char :=
  if 280 < tw.length then tw.take 277 ++ ['.', '.', '.'] else tw

/-- fallback_templates.py lines 192-235, with the five `random.choice` draws
passed as explicit indices. -/
def generate_fallback_posts (article_title article_url article_description
    project_id : String) (iEmoji iBullet iDown iLi iTw : Nat) :
    Except String (String × String) :=
  match pyChoice (emojisFor project_id) iEmoji with
  | none => .error "IndexError"
  | some emoji =>
    match pyChoice BULLET_EMOJIS iBullet with
    | none => .error "IndexError"
    | some bullet =>
      match pyChoice DOWN_EMOJIS iDown with
      | none => .error "IndexError"
      | some down =>
        let short_title :=
          if article_title ≠ "" then String.mk (article_title.data.take 120)
          else "Latest Industry Update"
        let description :=
          if article_description ≠ "" ∧ 300 < article_description.length then
            String.mk (article_description.data.take 300) ++ "..."
          else article_description
        let title := if article_title ≠ "" then article_title else "Industry Update"
        let tvars := [("emoji", emoji), ("title", title),
          ("short_title", short_title), ("description", description),
          ("bullet", bullet), ("down", down)]
        let li_templates :=
          if project_id = "infiniteo" then INFINITEO_LINKEDIN_TEMPLATES
          else if project_id = "yourops" then YOUROPS_LINKEDIN_TEMPLATES
          else INFINITEO_LINKEDIN_TEMPLATES
        let tw_templates :=
          if project_id = "infiniteo" then INFINITEO_TWITTER_TEMPLATES
          else if project_id = "yourops" then YOUROPS_TWITTER_TEMPLATES
          else INFINITEO_TWITTER_TEMPLATES
        match pyChoice li_templates iLi with
        | none => .error "IndexError"
        | some li_t =>
          match pyChoice tw_templates iTw with
          | none => .error "IndexError"
          | some tw_t =>
            match pyFormat tvars li_t.data with
            | .error e => .error e
            | .ok linkedin_post =>
              match pyFormat tvars tw_t.data with
              | .error e => .error e
              | .ok twitter_post =>
                .ok (String.mk linkedin_post, String.mk (truncTw twitter_post))

end Fallback

namespace Scorer

/-- An article dict as used by the scorer: `.get("title") or ""` etc. make the
missing-key case the empty string. -/
structure Article where
  title : String
  summary : String
  published_at : String
  deriving Repr, DecidableEq

/-- The scoring_config dict; dict iteration order is insertion order, so each
dict is an association list. Weights are modelled as rationals (the source's
floats; the magnitudes used never hit float rounding). -/
structure ScoringConfig where
  keywords : List (String × ℚ)
  negative_keywords : List (String × ℚ)
  combo_bonuses : List (String × ℚ)
  recency_hours : List (Nat × ℚ)
  base_score : ℚ
  deriving Repr, DecidableEq

/-- `round(score, 2)`: round half to even at two decimals. -/
def round2 (q : ℚ) : ℚ :=
  let x := q * 100
  let f := ⌊x⌋
  let r := x - f
  let n : Int :=
    if r < 1/2 then f
    else if 1/2 < r then f + 1
    else if f % 2 = 0 then f else f + 1
  (n : ℚ) / 100

/-- First negative keyword (insertion order) found in the combined text ends
the loop (`break`); its (negative) weight is added. -/
def negAdjust (negs : List (String × ℚ)) (text : List Char) : ℚ :=
  match negs.find? (fun kv => Py.containsSub (Py.lower kv.1.data) text) with
  | some kv => kv.2
  | none => 0

/-- `kw_lower.split()[0] if " " in kw_lower else kw_lower` (for a keyword that
splits to nothing this yields "" where Python would raise; no configured
keyword is whitespace-only). -/
def catOf (kwl : List Char) : String :=
  if kwl.contains ' ' then
    String.mk ((kwl.dropWhile Py.isSpace).takeWhile fun c => !Py.isSpace c)
  else String.mk kwl

/-- `matched_categories.add(...)`: a set, used only through existential
membership tests, modelled as insert-if-absent. -/
def insertCat (cats : List String) (cat : String) : List String :=
  if cats.contains cat then cats else cats ++ [cat]

/-- The positive keyword loop: title match adds the full weight, else a
summary match adds weight × 0.7; either records the keyword's category. -/
def posFold (kws : List (String × ℚ)) (title content : List Char) :
    ℚ × List String :=
  kws.foldl
    (fun acc kv =>
      let kwl := Py.lower kv.1.data
      if Py.containsSub kwl title then
        (acc.1 + kv.2, insertCat acc.2 (catOf kwl))
      else if Py.containsSub kwl content then
        (acc.1 + kv.2 * (7 / 10), insertCat acc.2 (catOf kwl))
      else acc)
    (0, [])

/-- Combo bonus: every `+`-separated part must be a substring of some matched
category. -/
def comboAdjust (combos : List (String × ℚ)) (cats : List String) : ℚ :=
  combos.foldl
    (fun s kv =>
      let parts := Py.splitSep '+' kv.1.data
      if parts.all (fun p => cats.any fun cat => Py.containsSub p cat.data)
      then s + kv.2 else s)
    0

/-- Stable ascending insertion by integer threshold
(`sorted(recency_hours.items(), key=lambda x: int(x[0]))`). -/
def insertAsc (kv : Nat × ℚ) : List (Nat × ℚ) → List (Nat × ℚ)
  | [] => [kv]
  | b :: rest => if b.1 ≤ kv.1 then b :: insertAsc kv rest else kv :: b :: rest

def sortAsc : List (Nat × ℚ) → List (Nat × ℚ)
  | [] => []
  | kv :: rest => insertAsc kv (sortAsc rest)

/-- Recency bonus: first threshold (ascending) strictly above the article's
age in hours wins; none if the date did not parse. -/
def recAdjust (rec : List (Nat × ℚ)) (hoursOld : Option ℚ) : ℚ :=
  match hoursOld with
  | none => 0
  | some age =>
    match (sortAsc rec).find? (fun kv => age < (kv.1 : ℚ)) with
    | some kv => kv.2
    | none => 0

/-- scorer.py lines 24-63: one article's score. `parseDate` is `_parse_date`
made an explicit parameter (a pure string-to-timestamp function, seconds),
`now` the `datetime.now(timezone.utc)` reading in seconds. -/
def scoreOne (parseDate : String → Option ℚ) (now : ℚ) (cfg : ScoringConfig)
    (a : Article) : ℚ :=
  let title := Py.lower a.title.data
  let content := Py.lower a.summary.data
  let text := title ++ ' ' :: content
  let s0 := cfg.base_score + negAdjust cfg.negative_keywords text
  let pos := posFold cfg.keywords title content
  let s1 := s0 + pos.1 + comboAdjust cfg.combo_bonuses pos.2
  let hoursOld := (parseDate a.published_at).map fun ts => (now - ts) / 3600
  s1 + recAdjust cfg.recency_hours hoursOld

/-- Descending stable insertion on the key
`(relevance_score, published_at)` (list.sort with reverse=True is stable;
ties keep their original relative order). -/
def keyLt (a b : ℚ × String) : Bool :=
  a.1 < b.1 || (a.1 = b.1 && a.2 < b.2)

def sortKey (p : Article × ℚ) : ℚ × String := (p.2, p.1.published_at)

def insertDesc (a : Article × ℚ) :
    List (Article × ℚ) → List (Article × ℚ)
  | [] => [a]
  | b :: rest =>
    if keyLt (sortKey a) (sortKey b) then b :: insertDesc a rest
    else a :: b :: rest

def sortDesc : List (Article × ℚ) → List (Article × ℚ)
  | [] => []
  | a :: rest => insertDesc a (sortDesc rest)

/-- scorer.py lines 16-73: score every article (attaching
`relevance_score = round(score, 2)`), then sort descending by
(score, published_at). -/
def score_articles (parseDate : String → Option ℚ) (now : ℚ)
    (articles : List Article) (cfg : ScoringConfig) : List (Article × ℚ) :=
  sortDesc (articles.map fun a => (a, round2 (scoreOne parseDate now cfg a)))

/-- scorer.py lines 76-80. -/
def select_best (articles : List (Article × ℚ)) : Option (Article × ℚ) :=
  articles.head?

end Scorer

namespace AIGen

/-- ai_generator.py constants. -/
def AI_TOTAL_BUDGET : ℚ := 120

def RETRY_DELAYS : List Nat := [3, 6, 12]

def MIN_RESPONSE_LENGTH : Nat := 100

structure AIGeneratedContent where
  raw_output : String
  model_used : String
  deriving Repr, DecidableEq

/-- ai_generator.py lines 31-43. -/
def validate_ai_response (response : String) : Bool :=
  let r := response.data
  if r.isEmpty || r.length < MIN_RESPONSE_LENGTH then false
  else
    let has_linkedin := Py.containsSub "---LINKEDIN---".data r ||
      Py.containsSub "LINKEDIN:".data r
    let has_twitter := Py.containsSub "---TWITTER---".data r ||
      Py.containsSub "TWITTER:".data r
    if has_linkedin && has_twitter then true
    else if r.length > 200 then true
    else false

/-- `"429" in error_str or "rate" in error_str.lower() or "queue" in
error_str.lower()`: the only exception class retried on the same model; every
other exception (404, 401, timeout, anything else) breaks to the next model. -/
def isRetryable (e : String) : Bool :=
  Py.containsSub "429".data e.data ||
  Py.containsSub "rate".data (Py.lower e.data) ||
  Py.containsSub "queue".data (Py.lower e.data)

/-- The `for retry in range(len(RETRY_DELAYS) + 1)` loop for one model.
`call r` is the API call on retry r (an exception surfaces as `.error`),
`elapsed r` the `time.time() - start_time` reading at the top of iteration r.
Returns the accepted response, or `none` when the loop breaks or ends (the
caller then moves to the next model). -/
def innerLoop (call : Nat → Except String String) (elapsed : Nat → ℚ) :
    Nat → Nat → Option String
  | _, 0 => none
  | r, remaining + 1 =>
    if elapsed r > AI_TOTAL_BUDGET then none
    else
      match call r with
      | .ok response =>
        if validate_ai_response response then some response else none
      | .error e =>
        if isRetryable e then
          if r < RETRY_DELAYS.length then innerLoop call elapsed (r + 1) remaining
          else none
        else none

/-- The `for model_idx, model in enumerate(models)` loop. -/
def outerLoop (call : Nat → Nat → Except String String) (elapsedM : Nat → ℚ)
    (elapsedR : Nat → Nat → ℚ) : Nat → List String → Option AIGeneratedContent
  | _, [] => none
  | idx, m :: rest =>
    if elapsedM idx > AI_TOTAL_BUDGET then none
    else
      match innerLoop (call idx) (elapsedR idx) 0 (RETRY_DELAYS.length + 1) with
      | some response => some ⟨response, m⟩
      | none => outerLoop call elapsedM elapsedR (idx + 1) rest

/-- ai_generator.py lines 46-134 with the environment made explicit: `models`
is the primary-plus-fallbacks chain, `call idx r` the API call to model idx on
retry r, `elapsedM idx` / `elapsedR idx r` the clock readings at the
outer/inner loop tops. -/
def generate_posts (models : List String)
    (call : Nat → Nat → Except String String) (elapsedM : Nat → ℚ)
    (elapsedR : Nat → Nat → ℚ) : Option AIGeneratedContent :=
  outerLoop call elapsedM elapsedR 0 models

end AIGen

namespace Orchestrator

/-- A raw article dict as flowing through the pipeline steps. -/
structure RawArticle where
  title : String
  url : String
  summary : String
  deriving Repr, DecidableEq

/-- The project row (already filtered on `is_active == True` by the step-1
query, so an inactive project surfaces as absence). -/
structure Project where
  display_name : String
  brand_voice : String
  twitter_enabled : Bool
  deriving Repr, DecidableEq

/-- The PipelineRun record fields the claims speak about. -/
structure PipelineRun where
  project_id : String
  trigger_type : String
  status : String
  error_message : String
  used_fallback : Bool
  deriving Repr, DecidableEq

/-- An active LinkedIn profile together with the outcome of publishing to it:
`.ok true` / `.ok false` mirror `result.get("success")`, `.error` an
exception from publish_to_linkedin. -/
structure LinkedInProfile where
  account_type : String
  publishOutcome : Except String Bool

/-- The environment of one run_pipeline invocation: every database read or
write, network call and library call is an oracle recording what that call
would do, in source order. `runningRuns` is the number of PipelineRun rows
with status "running" for this project already in the database — present in
the state precisely so that the embedding shows run_pipeline never reads
it. -/
structure Env where
  project : Option Project
  configParse : Except String Unit
  persistRun : Except String Unit
  hashtags : List String
  fetch : Except String (List RawArticle)
  fallbackArticle : Option RawArticle
  resolve : List RawArticle → Except String (List RawArticle)
  dedup : List RawArticle → Except String (List RawArticle)
  score : List RawArticle → Except String (List RawArticle)
  extract : Except String String
  ai : Except String (Option AIGen.AIGeneratedContent)
  fallbackPosts : Except String (String × String)
  persistPosts : Except String Unit
  linkedinProfiles : List LinkedInProfile
  twitterPublish : Except String Bool
  finalCommit : Except String Unit
  runningRuns : Nat

/-- orchestrator.py lines 349-356: the finalization rule. Returns
(status, error_message suffix set by the failed branch; "" = untouched).
The third argument is the truthiness of `linkedin_profiles` — the list of
active LinkedIn profiles — not of publish targets in general. -/
def finalizeStatus (publish_fail publish_success : Nat)
    (hasLinkedinProfiles : Bool) : String × String :=
  if publish_fail > 0 ∧ publish_success > 0 then ("partial_failure", "")
  else if publish_fail > 0 ∧ publish_success = 0 ∧ hasLinkedinProfiles then
    ("failed", "All publish attempts failed")
  else ("success", "")

/-- The publish loop counters: a profile whose publish returned
success=True increments publish_success; a False result or an exception
increments publish_fail. Returns (publish_success, publish_fail). -/
def countPub (outcomes : List (Except String Bool)) : Nat × Nat :=
  outcomes.foldl
    (fun acc o =>
      match o with
      | .ok true => (acc.1 + 1, acc.2)
      | .ok false => (acc.1, acc.2 + 1)
      | .error _ => (acc.1, acc.2 + 1))
    (0, 0)

/-- Steps 4-7 (orchestrator.py lines 103-142): URL resolution, dedup,
scoring (each degrading on error exactly as the source) and select_best,
which is the head of the scored list. -/
def selectStage (raw1 : List RawArticle) (env : Env) : Option RawArticle :=
  let raw_articles := match env.resolve raw1 with
    | .ok a => a
    | .error _ => raw1
  let new_articles := match env.dedup raw_articles with
    | .ok a => a
    | .error _ => raw_articles
  let articles_to_score :=
    if new_articles.isEmpty then raw_articles else new_articles
  let scored := match env.score articles_to_score with
    | .ok a => a
    | .error _ => articles_to_score
  scored.head?

/-- Steps 14-15 (orchestrator.py lines 268-345): the LinkedIn publish loop
over the active profiles and the conditional Twitter publish; returns
(publish_success, publish_fail). -/
def publishCounts (project : Project) (env : Env) : Nat × Nat :=
  let li := countPub (env.linkedinProfiles.map LinkedInProfile.publishOutcome)
  let tw : Nat × Nat :=
    if project.twitter_enabled then
      match env.twitterPublish with
      | .ok true => (1, 0)
      | .ok false => (0, 1)
      | .error _ => (0, 1)
    else (0, 0)
  (li.1 + tw.1, li.2 + tw.2)

/-- Steps 13 (persist) to 16 (orchestrator.py lines 243-367): GeneratedPost
persistence, then finalization from the publish counters, and the closing
commit. The two oracles able to raise route through the fatal handler
(lines 369-377), which returns a failed run carrying str(e). -/
def finRun (project_id trigger_type : String) (env : Env)
    (used_fallback : Bool) (publish_success publish_fail : Nat)
    (hasLi : Bool) : PipelineRun :=
  match env.persistPosts with
  | .error e =>
    { project_id := project_id, trigger_type := trigger_type,
      status := "failed", error_message := e, used_fallback := used_fallback }
  | .ok _ =>
    let fin := finalizeStatus publish_fail publish_success hasLi
    match env.finalCommit with
    | .ok _ =>
      { project_id := project_id, trigger_type := trigger_type,
        status := fin.1, error_message := fin.2,
        used_fallback := used_fallback }
    | .error e =>
      { project_id := project_id, trigger_type := trigger_type,
        status := "failed", error_message := e,
        used_fallback := used_fallback }

/-- Steps 8-13 (orchestrator.py lines 160-240): content extraction, AI
generation, parsing (the real parse_ai_output), validation (the real
validate_posts, with the 70-score gate) and the template fallback; a
fallback failure returns the failed run of lines 233-240. -/
def postsStage (project_id trigger_type : String) (project : Project)
    (env : Env) (best : RawArticle) : PipelineRun :=
  let article_summary := best.summary
  let _content_text := match env.extract with
    | .ok t => t
    | .error _ => article_summary
  let posts0 : String × String :=
    match env.ai with
    | .ok (some c) =>
      let parsed := PostParser.parse_ai_output c.raw_output
      (parsed.linkedin_post, parsed.twitter_post)
    | .ok none => ("", "")
    | .error _ => ("", "")
  let posts1 :=
    if posts0.1 ≠ "" ∨ posts0.2 ≠ "" then
      let validation := Validator.validate_posts posts0.1 posts0.2 env.hashtags
      if validation.is_valid && validation.quality_score ≥ 70 then posts0
      else ("", "")
    else posts0
  match (if posts1.1 = "" ∨ posts1.2 = "" then
      (match env.fallbackPosts with
        | .ok p => some (p, true)
        | .error _ => none)
    else some (posts1, false)) with
  | none =>
    { project_id := project_id, trigger_type := trigger_type,
      status := "failed",
      error_message := "Both AI and fallback post generation failed",
      used_fallback := false }
  | some pu =>
    finRun project_id trigger_type env pu.2
      (publishCounts project env).1 (publishCounts project env).2
      (!env.linkedinProfiles.isEmpty)

/-- The body of the big `try:` (orchestrator.py lines 79-367): steps 3
(fetch, with the DB-article fallback of lines 90-103) through 16, composed
from the stage functions above. -/
def runBody (project_id trigger_type : String) (project : Project)
    (env : Env) : PipelineRun :=
  let raw0 := match env.fetch with | .ok a => a | .error _ => []
  match (if raw0.isEmpty then env.fallbackArticle.map (fun a => [a])
      else some raw0) with
  | none =>
    { project_id := project_id, trigger_type := trigger_type,
      status := "failed", error_message := "No articles available",
      used_fallback := false }
  | some raw1 =>
    match selectStage raw1 env with
    | none =>
      { project_id := project_id, trigger_type := trigger_type,
        status := "failed", error_message := "No article selected",
        used_fallback := false }
    | some best => postsStage project_id trigger_type project env best

/-- orchestrator.py lines 25-377. A `.error` result is an exception escaping
to the caller: the missing/inactive-project ValueError (line 61), a
json.loads failure on the project config (lines 64-66, before the try block),
or a failure persisting the new run record (lines 70-77, also before the
try). Everything after line 79 is inside the try and returns a run. -/
def run_pipeline (project_id trigger_type : String) (env : Env) :
    Except String PipelineRun :=
  match env.project with
  | none => .error ("Project " ++ project_id ++ " not found or inactive")
  | some project =>
    match env.configParse with
    | .error e => .error e
    | .ok _ =>
      match env.persistRun with
      | .error e => .error e
      | .ok _ => .ok (runBody project_id trigger_type project env)

/-- routes_api.py lines 263-271 (the manual-trigger API entry point): 404 if
the project row is missing, 409 "A pipeline run is already in progress" if
db.get_running_pipeline finds a run with status "running" for the project;
only otherwise does it go on to invoke run_pipeline. -/
def trigger_pipeline (projectFound runningExists : Bool) : Except Nat Unit :=
  if !projectFound then .error 404
  else if runningExists then .error 409
  else .ok ()

/-- An active project whose stored rss_feeds column is not valid JSON:
json.loads raises at line 64, after the active-project check but before the
try block, so the exception escapes run_pipeline. -/
def envC2 : Env :=
  { project := some ⟨"Infiniteo", "professional", true⟩,
    configParse := .error "Expecting value: line 1 column 1 (char 0)",
    persistRun := .ok (), hashtags := [], fetch := .ok [],
    fallbackArticle := none, resolve := fun a => .ok a,
    dedup := fun a => .ok a, score := fun a => .ok a,
    extract := .ok "", ai := .ok none, fallbackPosts := .ok ("", ""),
    persistPosts := .ok (), linkedinProfiles := [],
    twitterPublish := .ok false, finalCommit := .ok (), runningRuns := 0 }

/-- A fully healthy environment (used to instantiate the amended C2
theorem). -/
def envC2ok : Env :=
  { project := some ⟨"Infiniteo", "professional", true⟩,
    configParse := .ok (), persistRun := .ok (), hashtags := ["#AI"],
    fetch := .ok [⟨"Big AI news", "https://example.com/a", "A summary"⟩],
    fallbackArticle := none, resolve := fun a => .ok a,
    dedup := fun a => .ok a, score := fun a => .ok a,
    extract := .ok "Full text", ai := .ok none,
    fallbackPosts := .ok ("LinkedIn fallback post", "Twitter fallback post"),
    persistPosts := .ok (), linkedinProfiles := [],
    twitterPublish := .ok true, finalCommit := .ok (), runningRuns := 0 }

/-- Twitter is enabled (a publish target exists) and its single publish
attempt fails; no LinkedIn profile is active. The source's finalize rule
conditions the `failed` branch on `linkedin_profiles` alone, so this run
finalizes as "success". -/
def envC1 : Env :=
  { project := some ⟨"Infiniteo", "professional", true⟩,
    configParse := .ok (), persistRun := .ok (), hashtags := [],
    fetch := .ok [⟨"Big AI news", "https://example.com/a", "A summary"⟩],
    fallbackArticle := none, resolve := fun a => .ok a,
    dedup := fun a => .ok a, score := fun a => .ok a,
    extract := .ok "Full text", ai := .ok none,
    fallbackPosts := .ok ("LinkedIn fallback post", "Twitter fallback post"),
    persistPosts := .ok (), linkedinProfiles := [],
    twitterPublish := .ok false, finalCommit := .ok (), runningRuns := 0 }

/-- A database that already holds a PipelineRun with status "running" for
this project (runningRuns = 1); everything else is healthy. -/
def envC9 : Env :=
  { project := some ⟨"Infiniteo", "professional", true⟩,
    configParse := .ok (), persistRun := .ok (), hashtags := [],
    fetch := .ok [⟨"Big AI news", "https://example.com/a", "A summary"⟩],
    fallbackArticle := none, resolve := fun a => .ok a,
    dedup := fun a => .ok a, score := fun a => .ok a,
    extract := .ok "Full text", ai := .ok none,
    fallbackPosts := .ok ("LinkedIn fallback post", "Twitter fallback post"),
    persistPosts := .ok (), linkedinProfiles := [],
    twitterPublish := .ok true, finalCommit := .ok (), runningRuns := 1 }

end Orchestrator

namespace Dedup

theorem splitFirst_of_not_mem {sep : Char} :
    ∀ {l : List Char}, sep ∉ l → Py.splitFirst sep l = none
  | [], _ => rfl
  | c :: rest, h => by
    have hc : ¬c = sep := fun e => h (e ▸ List.mem_cons_self c rest)
    have hr : sep ∉ rest := fun m => h (List.mem_cons_of_mem c m)
    simp [Py.splitFirst, hc, splitFirst_of_not_mem hr]

theorem splitFirst_append {sep : Char} :
    ∀ (a b : List Char), sep ∉ a → Py.splitFirst sep (a ++ sep :: b) = some (a, b)
  | [], b, _ => by simp [Py.splitFirst]
  | c :: a', b, h => by
    have hc : ¬c = sep := fun e => h (e ▸ List.mem_cons_self c a')
    have ha : sep ∉ a' := fun m => h (List.mem_cons_of_mem c m)
    simp [Py.splitFirst, hc, splitFirst_append a' b ha]

theorem splitSep_of_not_mem {sep : Char} :
    ∀ {l : List Char}, sep ∉ l → Py.splitSep sep l = [l]
  | [], _ => rfl
  | c :: rest, h => by
    have hc : ¬c = sep := fun e => h (e ▸ List.mem_cons_self c rest)
    have hr : sep ∉ rest := fun m => h (List.mem_cons_of_mem c m)
    simp [Py.splitSep, hc, splitSep_of_not_mem hr]

theorem splitSep_append {sep : Char} :
    ∀ (a b : List Char), sep ∉ a →
      Py.splitSep sep (a ++ sep :: b) = a :: Py.splitSep sep b
  | [], b, _ => by simp [Py.splitSep]
  | c :: a', b, h => by
    have hc : ¬c = sep := fun e => h (e ▸ List.mem_cons_self c a')
    have ha : sep ∉ a' := fun m => h (List.mem_cons_of_mem c m)
    simp [Py.splitSep, hc, splitSep_append a' b ha]

theorem takeWhile_append_all {P : Char → Bool} :
    ∀ (h r : List Char), (∀ c ∈ h, P c = true) →
      (h ++ r).takeWhile P = h ++ r.takeWhile P
  | [], r, _ => rfl
  | c :: h', r, hall => by
    have hc := hall c (List.mem_cons_self c h')
    simp [List.takeWhile, hc, takeWhile_append_all h' r
      (fun x hx => hall x (List.mem_cons_of_mem c hx))]

theorem dropWhile_append_all {P : Char → Bool} :
    ∀ (h r : List Char), (∀ c ∈ h, P c = true) →
      (h ++ r).dropWhile P = r.dropWhile P
  | [], r, _ => rfl
  | c :: h', r, hall => by
    have hc := hall c (List.mem_cons_self c h')
    simp [List.dropWhile, hc, dropWhile_append_all h' r
      (fun x hx => hall x (List.mem_cons_of_mem c hx))]

theorem lower_eq_self :
    ∀ {s : List Char}, (∀ c ∈ s, Py.lowerChar c = c) → Py.lower s = s
  | [], _ => rfl
  | c :: cs, h => by
    have hc := h c (List.mem_cons_self c cs)
    have := lower_eq_self (s := cs) (fun x hx => h x (List.mem_cons_of_mem c hx))
    simp [Py.lower] at this ⊢
    exact ⟨hc, this⟩

theorem unquotePlus_id :
    ∀ {l : List Char}, (∀ c ∈ l, ¬c = '%' ∧ ¬c = '+') → unquotePlus l = l
  | [], _ => by simp [unquotePlus]
  | c :: rest, h => by
    have hc := h c (List.mem_cons_self c rest)
    have hr : ∀ x ∈ rest, ¬x = '%' ∧ ¬x = '+' :=
      fun x hx => h x (List.mem_cons_of_mem c hx)
    rw [unquotePlus.eq_def]
    simp [hc.1, hc.2, unquotePlus_id hr]

theorem quotePlus_id :
    ∀ {l : List Char}, (∀ c ∈ l, isQuoteSafe c = true) → quotePlus l = l
  | [], _ => rfl
  | c :: rest, h => by
    have hc := h c (List.mem_cons_self c rest)
    have := quotePlus_id (l := rest) (fun x hx => h x (List.mem_cons_of_mem c hx))
    simp [quotePlus] at this ⊢
    simp [hc, this]

theorem wfScheme_chars {s : List Char} (hs : wfScheme s = true) :
    ∀ c ∈ s, Py.lowerChar c = c ∧ ¬c = ':' ∧ ¬c = '/' ∧ ¬c = '?' ∧ ¬c = '#' := by
  intro c hc
  simp only [wfScheme, Bool.and_eq_true, List.all_eq_true] at hs
  have := hs.2 c hc
  simp at this
  tauto

theorem schemeSplit_render (s rest : List Char) (hs : wfScheme s = true) :
    schemeSplit (s ++ ':' :: rest) = some (s, rest) := by
  cases s with
  | nil => simp [wfScheme] at hs
  | cons c cs =>
    have hcolon : ':' ∉ c :: cs := fun hm => ((wfScheme_chars hs) _ hm).2.1 rfl
    have hlower : Py.lower (c :: cs) = c :: cs :=
      lower_eq_self fun x hx => ((wfScheme_chars hs) x hx).1
    simp only [wfScheme, Bool.and_eq_true, List.all_eq_true] at hs
    have hmatch := hs.1
    simp only [Bool.and_eq_true] at hmatch
    have hall2 : cs.all isSchemeChar = true := List.all_eq_true.2 hmatch.2
    unfold schemeSplit
    rw [splitFirst_append _ _ hcolon]
    simp [hmatch.1, hall2, hlower]

theorem netlocSplit_render (h tail : List Char) (hh : wfHost h = true)
    (ht : breaksNetloc tail = true) :
    netlocSplit ('/' :: '/' :: (h ++ tail)) = (h, tail) := by
  have hall : ∀ c ∈ h, notNetlocEnd c = true := by
    simpa [wfHost, List.all_eq_true] using hh
  have hred : netlocSplit ('/' :: '/' :: (h ++ tail)) =
      ((h ++ tail).takeWhile notNetlocEnd, (h ++ tail).dropWhile notNetlocEnd) := rfl
  rw [hred, takeWhile_append_all _ _ hall, dropWhile_append_all _ _ hall]
  cases tail with
  | nil => simp
  | cons c t =>
    simp only [breaksNetloc, Bool.not_eq_true'] at ht
    simp [List.takeWhile, List.dropWhile, ht]

theorem mem_encodeRaw :
    ∀ (q : List (List Char × List Char)), wfQuery q = true →
      ∀ c ∈ encodeRaw q, c = '&' ∨ c = '=' ∨ isSafeQ c = true
  | [], _, c, hc => by simp [encodeRaw, joinAmp] at hc
  | [(k, v)], hq, c, hc => by
    simp only [wfQuery, List.all_eq_true] at hq
    have hkv := hq (k, v) (List.mem_singleton.2 rfl)
    simp only [wfPair, Bool.and_eq_true, List.all_eq_true] at hkv
    simp only [encodeRaw, List.map, joinAmp] at hc
    rcases List.mem_append.1 hc with hk | hv
    · exact Or.inr (Or.inr (hkv.1.2 c hk))
    · rcases List.mem_cons.1 hv with he | hv'
      · exact Or.inr (Or.inl he)
      · exact Or.inr (Or.inr (hkv.2 c hv'))
  | (k, v) :: p :: t, hq, c, hc => by
    simp only [wfQuery, List.all_eq_true] at hq
    have hkv := hq (k, v) (List.mem_cons_self _ _)
    simp only [wfPair, Bool.and_eq_true, List.all_eq_true] at hkv
    have hrest : wfQuery (p :: t) = true := by
      simp only [wfQuery, List.all_eq_true]
      exact fun x hx => hq x (List.mem_cons_of_mem _ hx)
    have hshape : encodeRaw ((k, v) :: p :: t) =
        (k ++ '=' :: v) ++ '&' :: encodeRaw (p :: t) := rfl
    rw [hshape] at hc
    rcases List.mem_append.1 hc with hk | hv
    · rcases List.mem_append.1 hk with hk' | hv'
      · exact Or.inr (Or.inr (hkv.1.2 c hk'))
      · rcases List.mem_cons.1 hv' with he | hv''
        · exact Or.inr (Or.inl he)
        · exact Or.inr (Or.inr (hkv.2 c hv''))
    · rcases List.mem_cons.1 hv with he | hv'
      · exact Or.inl he
      · exact mem_encodeRaw (p :: t) hrest c hv'

theorem not_mem_encodeRaw_hash {q : List (List Char × List Char)}
    (hq : wfQuery q = true) : '#' ∉ encodeRaw q := by
  intro hm
  rcases mem_encodeRaw q hq _ hm with h | h | h <;> simp [isSafeQ] at h

theorem not_mem_encodeRaw_qmark {q : List (List Char × List Char)}
    (hq : wfQuery q = true) : '?' ∉ encodeRaw q := by
  intro hm
  rcases mem_encodeRaw q hq _ hm with h | h | h <;> simp [isSafeQ] at h

theorem wfPath_chars {p : List Char} (hp : wfPath p = true) :
    ∀ c ∈ p, ¬c = '?' ∧ ¬c = '#' := by
  intro c hc
  simp only [wfPath, Bool.and_eq_true, List.all_eq_true] at hp
  have := hp.2 c hc
  simp at this
  tauto

theorem breaksNetloc_tail (p : List Char) (q : List (List Char × List Char))
    (hp : wfPath p = true) :
    breaksNetloc (p ++ (if q = [] then [] else '?' :: encodeRaw q)) = true := by
  cases p with
  | nil =>
    cases q with
    | nil => rfl
    | cons a t => rfl
  | cons c p' =>
    simp only [wfPath, Bool.and_eq_true] at hp
    have : c = '/' := by
      have := hp.1
      simpa using this
    subst this
    rfl

theorem pyUrlparse_render (s h p : List Char) (q : List (List Char × List Char))
    (hs : wfScheme s = true) (hh : wfHost h = true) (hp : wfPath p = true)
    (hq : wfQuery q = true) :
    pyUrlparse (renderUrl s h p q) =
      ⟨s, h, p, if q = [] then [] else encodeRaw q, []⟩ := by
  have hrender : renderUrl s h p q =
      s ++ ':' :: ('/' :: '/' :: (h ++ (p ++ (if q = [] then [] else '?' :: encodeRaw q)))) := by
    simp [renderUrl]
  have h1 : schemeSplit (renderUrl s h p q) =
      some (s, '/' :: '/' :: (h ++ (p ++ (if q = [] then [] else '?' :: encodeRaw q)))) := by
    rw [hrender]; exact schemeSplit_render _ _ hs
  have h2 : netlocSplit ('/' :: '/' :: (h ++ (p ++ (if q = [] then [] else '?' :: encodeRaw q)))) =
      (h, p ++ (if q = [] then [] else '?' :: encodeRaw q)) :=
    netlocSplit_render _ _ hh (breaksNetloc_tail p q hp)
  have h3 : Py.splitFirst '#' (p ++ (if q = [] then [] else '?' :: encodeRaw q)) = none := by
    apply splitFirst_of_not_mem
    intro hm
    rcases List.mem_append.1 hm with hmp | hmq
    · exact ((wfPath_chars hp) _ hmp).2 rfl
    · cases q with
      | nil => simp at hmq
      | cons a t =>
        simp only [if_neg (by simp : ¬a :: t = [])] at hmq
        rcases List.mem_cons.1 hmq with he | hm'
        · exact absurd he (by decide)
        · exact not_mem_encodeRaw_hash hq hm'
  have h4 : Py.splitFirst '?' (p ++ (if q = [] then [] else '?' :: encodeRaw q)) =
      if q = [] then none else some (p, encodeRaw q) := by
    cases q with
    | nil =>
      rw [if_pos rfl, if_pos rfl, List.append_nil]
      exact splitFirst_of_not_mem fun hm => ((wfPath_chars hp) _ hm).1 rfl
    | cons a t =>
      rw [if_neg (by simp : ¬a :: t = []), if_neg (by simp : ¬a :: t = [])]
      exact splitFirst_append _ _ fun hm => ((wfPath_chars hp) _ hm).1 rfl
  unfold pyUrlparse
  rw [h1]
  simp only []
  rw [h2]
  simp only []
  rw [h3]
  simp only []
  rw [h4]
  cases q with
  | nil => simp
  | cons a t => simp

theorem isSafeQ_spec {c : Char} (h : isSafeQ c = true) :
    isQuoteSafe c = true ∧ ¬c = '&' ∧ ¬c = '=' ∧ ¬c = '%' ∧ ¬c = '+' ∧
      ¬c = '?' ∧ ¬c = '#' := by
  simp [isSafeQ] at h
  tauto

theorem qslField_wf (k v : List Char) (hw : wfPair (k, v) = true) :
    qslField (k ++ '=' :: v) = some (k, v) := by
  simp only [wfPair, Bool.and_eq_true, List.all_eq_true] at hw
  have hkchars := hw.1.2
  have hvchars := hw.2
  have hvne : ¬v = [] := by
    have := hw.1.1.2
    simpa using this
  have hknee : ¬(k ++ '=' :: v) = [] := by simp
  have hkeq : '=' ∉ k := fun hm => ((isSafeQ_spec (hkchars _ hm)).2.2.1) rfl
  have heq : Py.splitFirst '=' (k ++ '=' :: v) = some (k, v) :=
    splitFirst_append _ _ hkeq
  have huk : unquotePlus k = k :=
    unquotePlus_id fun c hc =>
      ⟨(isSafeQ_spec (hkchars _ hc)).2.2.2.1, (isSafeQ_spec (hkchars _ hc)).2.2.2.2.1⟩
  have huv : unquotePlus v = v :=
    unquotePlus_id fun c hc =>
      ⟨(isSafeQ_spec (hvchars _ hc)).2.2.2.1, (isSafeQ_spec (hvchars _ hc)).2.2.2.2.1⟩
  unfold qslField
  rw [if_neg hknee, heq]
  simp [hvne, huk, huv]

theorem amp_not_mem_field (k v : List Char) (hw : wfPair (k, v) = true) :
    '&' ∉ k ++ '=' :: v := by
  simp only [wfPair, Bool.and_eq_true, List.all_eq_true] at hw
  intro hm
  rcases List.mem_append.1 hm with hk | hv
  · exact (isSafeQ_spec (hw.1.2 _ hk)).2.1 rfl
  · rcases List.mem_cons.1 hv with he | hv'
    · exact absurd he (by decide)
    · exact (isSafeQ_spec (hw.2 _ hv')).2.1 rfl

theorem parseQsl_encodeRaw :
    ∀ q : List (List Char × List Char), wfQuery q = true →
      parseQsl (encodeRaw q) = q
  | [], _ => rfl
  | [(k, v)], hq => by
    have hw : wfPair (k, v) = true := by
      simp only [wfQuery, List.all_eq_true] at hq
      exact hq (k, v) (List.mem_singleton.2 rfl)
    have hshape : encodeRaw [(k, v)] = k ++ '=' :: v := rfl
    unfold parseQsl
    rw [hshape, splitSep_of_not_mem (amp_not_mem_field k v hw)]
    simp [List.filterMap, qslField_wf k v hw]
  | (k, v) :: p2 :: t, hq => by
    simp only [wfQuery, List.all_eq_true] at hq
    have hw : wfPair (k, v) = true := hq (k, v) (List.mem_cons_self _ _)
    have hrest : wfQuery (p2 :: t) = true :=
      List.all_eq_true.2 fun x hx => hq x (List.mem_cons_of_mem _ hx)
    have hshape : encodeRaw ((k, v) :: p2 :: t) =
        (k ++ '=' :: v) ++ '&' :: encodeRaw (p2 :: t) := rfl
    unfold parseQsl
    rw [hshape, splitSep_append _ _ (amp_not_mem_field k v hw)]
    rw [List.filterMap_cons, qslField_wf k v hw]
    exact congrArg (List.cons (k, v)) (parseQsl_encodeRaw (p2 :: t) hrest)

theorem parseQs_encodeRaw (q : List (List Char × List Char))
    (hq : wfQuery q = true) : parseQs (encodeRaw q) = groupPairs q := by
  unfold parseQs groupPairs
  rw [parseQsl_encodeRaw q hq]

theorem insertGrouped_of_not_mem {k : List Char} {v : List Char} :
    ∀ {acc}, k ∉ keysOf acc → insertGrouped k v acc = acc ++ [(k, [v])]
  | [], _ => rfl
  | (k', vs) :: rest, h => by
    have hk : ¬k' = k := fun e => h (e ▸ List.mem_cons_self _ _)
    have hr : k ∉ keysOf rest := fun m => h (List.mem_cons_of_mem _ m)
    simp [insertGrouped, hk, insertGrouped_of_not_mem hr]

theorem insertGrouped_app_last {k : List Char} {v : List Char} {ws : List (List Char)} :
    ∀ {acc}, k ∉ keysOf acc →
      insertGrouped k v (acc ++ [(k, ws)]) = acc ++ [(k, ws ++ [v])]
  | [], _ => by simp [insertGrouped]
  | (k', vs) :: rest, h => by
    have hk : ¬k' = k := fun e => h (e ▸ List.mem_cons_self _ _)
    have hr : k ∉ keysOf rest := fun m => h (List.mem_cons_of_mem _ m)
    simp [insertGrouped, hk, insertGrouped_app_last hr]

theorem foldl_run {k : List Char} :
    ∀ (vs : List (List Char)) (ws : List (List Char)) {acc}, k ∉ keysOf acc →
      List.foldl (fun a p => insertGrouped p.1 p.2 a) (acc ++ [(k, ws)])
          (vs.map fun v => (k, v)) =
        acc ++ [(k, ws ++ vs)]
  | [], ws, acc, _ => by simp
  | v :: vs', ws, acc, h => by
    simp only [List.map_cons, List.foldl_cons]
    rw [insertGrouped_app_last h, foldl_run vs' (ws ++ [v]) h]
    simp

theorem foldl_group_start {k : List Char} {vs : List (List Char)} {acc}
    (h : k ∉ keysOf acc) (hne : vs ≠ []) :
    List.foldl (fun a p => insertGrouped p.1 p.2 a) acc (vs.map fun v => (k, v)) =
      acc ++ [(k, vs)] := by
  cases vs with
  | nil => exact absurd rfl hne
  | cons v vs' =>
    simp only [List.map_cons, List.foldl_cons]
    rw [insertGrouped_of_not_mem h, foldl_run vs' [v] h]
    simp

theorem keysOf_append (a b : List (List Char × List (List Char))) :
    keysOf (a ++ b) = keysOf a ++ keysOf b := by
  simp [keysOf]

theorem foldl_flatten :
    ∀ (gs : List (List Char × List (List Char))) (acc),
      (∀ g ∈ gs, g.1 ∉ keysOf acc) →
      (List.Pairwise (fun a b => a.1 ≠ b.1) gs) →
      (∀ g ∈ gs, g.2 ≠ []) →
      List.foldl (fun a p => insertGrouped p.1 p.2 a) acc (flattenGroups gs) =
        acc ++ gs
  | [], acc, _, _, _ => by simp [flattenGroups]
  | (k, vs) :: rest, acc, hdisj, hnodup, hvne => by
    have hshape : flattenGroups ((k, vs) :: rest) =
        (vs.map fun v => (k, v)) ++ flattenGroups rest := by
      simp [flattenGroups]
    rw [hshape, List.foldl_append]
    have hk : k ∉ keysOf acc := hdisj (k, vs) (List.mem_cons_self _ _)
    rw [foldl_group_start hk (hvne (k, vs) (List.mem_cons_self _ _))]
    have hpair := List.pairwise_cons.1 hnodup
    rw [foldl_flatten rest (acc ++ [(k, vs)])
      (fun g hg => by
        rw [keysOf_append]
        intro hm
        rcases List.mem_append.1 hm with h1 | h2
        · exact hdisj g (List.mem_cons_of_mem _ hg) h1
        · simp [keysOf] at h2
          exact (hpair.1 g hg) h2.symm)
      hpair.2
      (fun g hg => hvne g (List.mem_cons_of_mem _ hg))]
    simp

theorem groupPairs_flattenGroups (gs : List (List Char × List (List Char)))
    (hnodup : List.Pairwise (fun a b => a.1 ≠ b.1) gs)
    (hvne : ∀ g ∈ gs, g.2 ≠ []) :
    groupPairs (flattenGroups gs) = gs := by
  unfold groupPairs
  rw [foldl_flatten gs [] (by simp [keysOf]) hnodup hvne]
  simp

theorem mem_insertGrouped {g : List Char × List (List Char)} {k v : List Char} :
    ∀ {acc}, g ∈ insertGrouped k v acc →
      g ∈ acc ∨ g = (k, [v]) ∨ ∃ vs, (k, vs) ∈ acc ∧ g = (k, vs ++ [v])
  | [], h => by
    simp [insertGrouped] at h
    exact Or.inr (Or.inl h)
  | (k', vs) :: rest, h => by
    by_cases he : k' = k
    · subst he
      simp only [insertGrouped, if_pos rfl] at h
      rcases List.mem_cons.1 h with h1 | h2
      · exact Or.inr (Or.inr ⟨vs, List.mem_cons_self _ _, h1⟩)
      · exact Or.inl (List.mem_cons_of_mem _ h2)
    · simp only [insertGrouped, if_neg he] at h
      rcases List.mem_cons.1 h with h1 | h2
      · exact Or.inl (h1 ▸ List.mem_cons_self _ _)
      · rcases mem_insertGrouped h2 with h3 | h3 | ⟨ws, hw, hg⟩
        · exact Or.inl (List.mem_cons_of_mem _ h3)
        · exact Or.inr (Or.inl h3)
        · exact Or.inr (Or.inr ⟨ws, List.mem_cons_of_mem _ hw, hg⟩)

theorem foldl_preserve {P : List Char × List (List Char) → Prop}
    {Q : List Char × List Char → Prop}
    (hstep : ∀ (pr : List Char × List Char) (acc), (∀ g ∈ acc, P g) → Q pr →
      ∀ g ∈ insertGrouped pr.1 pr.2 acc, P g) :
    ∀ (q : List (List Char × List Char)) (acc), (∀ pr ∈ q, Q pr) →
      (∀ g ∈ acc, P g) →
      ∀ g ∈ q.foldl (fun a p => insertGrouped p.1 p.2 a) acc, P g
  | [], acc, _, hacc, g, hg => hacc g hg
  | pr :: rest, acc, hq, hacc, g, hg => by
    have h1 : ∀ x ∈ insertGrouped pr.1 pr.2 acc, P x :=
      hstep pr acc hacc (hq pr (List.mem_cons_self _ _))
    exact foldl_preserve hstep rest _ (fun x hx => hq x (List.mem_cons_of_mem _ hx)) h1 g hg

theorem groupPairs_vals_ne {q : List (List Char × List Char)} :
    ∀ g ∈ groupPairs q, g.2 ≠ [] := by
  have hstep : ∀ (pr : List Char × List Char) (acc),
      (∀ g ∈ acc, g.2 ≠ []) → True → ∀ g ∈ insertGrouped pr.1 pr.2 acc, g.2 ≠ [] := by
    intro pr acc hacc _ g hg
    rcases mem_insertGrouped hg with h | h | ⟨vs, _, hg'⟩
    · exact hacc g h
    · rw [h]; simp
    · rw [hg']; simp
  exact foldl_preserve (P := fun g => g.2 ≠ []) (Q := fun _ => True) hstep q []
    (fun _ _ => trivial) (fun g hg => absurd hg (List.not_mem_nil g))

theorem groupPairs_wf {q : List (List Char × List Char)} (hq : wfQuery q = true) :
    ∀ g ∈ groupPairs q, wfGroup g := by
  have hstep : ∀ (pr : List Char × List Char) (acc), (∀ g ∈ acc, wfGroup g) →
      wfPair pr = true → ∀ g ∈ insertGrouped pr.1 pr.2 acc, wfGroup g := by
    intro pr acc hacc hpr g hg
    simp only [wfPair, Bool.and_eq_true, List.all_eq_true] at hpr
    have hk1 : pr.1 ≠ [] := by have := hpr.1.1.1; simpa using this
    have hv1 : pr.2 ≠ [] := by have := hpr.1.1.2; simpa using this
    rcases mem_insertGrouped hg with h | h | ⟨vs, hv, hg'⟩
    · exact hacc g h
    · rw [h]
      exact ⟨⟨hk1, hpr.1.2⟩, by
        intro w hw
        rcases List.mem_singleton.1 hw with rfl
        exact ⟨hv1, hpr.2⟩⟩
    · rw [hg']
      refine ⟨⟨hk1, hpr.1.2⟩, ?_⟩
      intro w hw
      rcases List.mem_append.1 hw with h1 | h2
      · exact (hacc _ hv).2 w h1
      · rcases List.mem_singleton.1 h2 with rfl
        exact ⟨hv1, hpr.2⟩
  exact foldl_preserve (P := wfGroup) (Q := fun pr => wfPair pr = true) hstep q []
    (by simpa [wfQuery, List.all_eq_true] using hq)
    (fun g hg => absurd hg (List.not_mem_nil g))

theorem keysOf_insertGrouped (k v : List Char) :
    ∀ acc, keysOf (insertGrouped k v acc) =
      if k ∈ keysOf acc then keysOf acc else keysOf acc ++ [k]
  | [] => by simp [insertGrouped, keysOf]
  | (k', vs) :: rest => by
    by_cases he : k' = k
    · subst he
      simp [insertGrouped, keysOf]
    · have h1 : insertGrouped k v ((k', vs) :: rest) =
          (k', vs) :: insertGrouped k v rest := by simp [insertGrouped, he]
      rw [h1]
      have h2 : keysOf ((k', vs) :: insertGrouped k v rest) =
          k' :: keysOf (insertGrouped k v rest) := rfl
      have h3 : keysOf ((k', vs) :: rest) = k' :: keysOf rest := rfl
      rw [h2, h3, keysOf_insertGrouped k v rest]
      have hne : ¬k = k' := fun e => he e.symm
      by_cases hm : k ∈ keysOf rest
      · simp [hm, List.mem_cons, hne]
      · simp [hm, List.mem_cons, hne]

theorem nodup_keys_groupPairs (q : List (List Char × List Char)) :
    (keysOf (groupPairs q)).Nodup := by
  suffices h : ∀ (l : List (List Char × List Char)) (acc), (keysOf acc).Nodup →
      (keysOf (l.foldl (fun a p => insertGrouped p.1 p.2 a) acc)).Nodup by
    exact h q [] (by simp [keysOf])
  intro l
  induction l with
  | nil => intro acc h; simpa using h
  | cons pr rest ih =>
    intro acc h
    simp only [List.foldl_cons]
    apply ih
    rw [keysOf_insertGrouped]
    by_cases hm : pr.1 ∈ keysOf acc
    · simpa [hm] using h
    · simp only [if_neg hm]
      simp [List.nodup_append, h, hm]

theorem pairwise_keys_groupPairs (q : List (List Char × List Char)) :
    List.Pairwise (fun a b => a.1 ≠ b.1) (groupPairs q) := by
  have h := nodup_keys_groupPairs q
  unfold keysOf at h
  have h' : List.Pairwise (fun a b => a ≠ b) (List.map Prod.fst (groupPairs q)) := h
  exact (List.pairwise_map (l := groupPairs q)).1 h'

theorem cleanedParams_insert_tracking {k v : List Char} (hk : isTracking k = true) :
    ∀ acc, cleanedParams (insertGrouped k v acc) = cleanedParams acc
  | [] => by simp [insertGrouped, cleanedParams, hk]
  | (k', vs) :: rest => by
    by_cases he : k' = k
    · subst he
      simp [insertGrouped, cleanedParams, List.filter_cons, hk]
    · have h1 : insertGrouped k v ((k', vs) :: rest) =
          (k', vs) :: insertGrouped k v rest := by simp [insertGrouped, he]
      rw [h1]
      unfold cleanedParams
      rw [List.filter_cons, List.filter_cons]
      have ih := cleanedParams_insert_tracking (v := v) hk rest
      unfold cleanedParams at ih
      by_cases ht : isTracking k' = true <;> simp [ht, ih]

theorem cleanedParams_insert_keep {k v : List Char} (hk : isTracking k = false) :
    ∀ acc, cleanedParams (insertGrouped k v acc) = insertGrouped k v (cleanedParams acc)
  | [] => by simp [insertGrouped, cleanedParams, List.filter_cons, hk]
  | (k', vs) :: rest => by
    by_cases he : k' = k
    · subst he
      simp [insertGrouped, cleanedParams, List.filter_cons, hk]
    · have h1 : insertGrouped k v ((k', vs) :: rest) =
          (k', vs) :: insertGrouped k v rest := by simp [insertGrouped, he]
      rw [h1]
      have ih := cleanedParams_insert_keep (v := v) hk rest
      simp only [cleanedParams] at ih
      by_cases ht : isTracking k' = true
      · simp [cleanedParams, List.filter_cons, ht, ih]
      · simp [cleanedParams, List.filter_cons, ht, insertGrouped, he, ih]

theorem cleaned_foldl :
    ∀ (q : List (List Char × List Char)) (acc),
      cleanedParams (q.foldl (fun a p => insertGrouped p.1 p.2 a) acc) =
        (dropTracking q).foldl (fun a p => insertGrouped p.1 p.2 a) (cleanedParams acc)
  | [], acc => by simp [dropTracking]
  | (k, v) :: rest, acc => by
    simp only [List.foldl_cons]
    by_cases hk : isTracking k = true
    · rw [cleaned_foldl rest _, cleanedParams_insert_tracking hk acc]
      simp [dropTracking, List.filter_cons, hk]
    · rw [cleaned_foldl rest _,
        cleanedParams_insert_keep (Bool.not_eq_true _ ▸ hk : isTracking k = false) acc]
      simp [dropTracking, List.filter_cons, hk]

theorem canonQuery_eq_group_dropTracking (q : List (List Char × List Char)) :
    canonQuery q = groupPairs (dropTracking q) := by
  unfold canonQuery groupPairs
  rw [cleaned_foldl q []]
  simp [cleanedParams]

theorem enc_fields :
    ∀ (gs : List (List Char × List (List Char))),
      (∀ g ∈ gs, (∀ c ∈ g.1, isQuoteSafe c = true) ∧
        ∀ w ∈ g.2, ∀ c ∈ w, isQuoteSafe c = true) →
      (gs.flatMap fun p => p.2.map fun v => quotePlus p.1 ++ '=' :: quotePlus v) =
        (flattenGroups gs).map fun pr => pr.1 ++ '=' :: pr.2
  | [], _ => rfl
  | (k, vs) :: rest, h => by
    have hg := h (k, vs) (List.mem_cons_self _ _)
    have hrest := fun g hg' => h g (List.mem_cons_of_mem _ hg')
    have h2 := enc_fields rest hrest
    have hshape : flattenGroups ((k, vs) :: rest) =
        (vs.map fun v => ((k : List Char), v)) ++ flattenGroups rest := by
      simp [flattenGroups]
    rw [List.flatMap_cons, hshape, List.map_append, ← h2]
    congr 1
    rw [List.map_map]
    apply List.map_congr_left
    intro v hv
    simp [quotePlus_id (hg.1), quotePlus_id (hg.2 v hv)]

theorem urlencode_eq_encodeRaw (gs : List (List Char × List (List Char)))
    (h : ∀ g ∈ gs, (∀ c ∈ g.1, isQuoteSafe c = true) ∧
      ∀ w ∈ g.2, ∀ c ∈ w, isQuoteSafe c = true) :
    urlencode gs = encodeRaw (flattenGroups gs) := by
  unfold urlencode encodeRaw
  rw [enc_fields gs h]

theorem flattenGroups_eq_nil_iff (gs : List (List Char × List (List Char)))
    (hvne : ∀ g ∈ gs, g.2 ≠ []) : flattenGroups gs = [] ↔ gs = [] := by
  cases gs with
  | nil => simp [flattenGroups]
  | cons g rest =>
    simp only [flattenGroups, List.flatMap_cons]
    constructor
    · intro h
      have := List.append_eq_nil.1 h
      have hm : g.2.map (fun v => (g.1, v)) = [] := this.1
      have := hvne g (List.mem_cons_self _ _)
      simp at hm
      exact absurd hm this
    · intro h
      exact absurd h (by simp)

theorem encodeRaw_ne_nil (pr : List Char × List Char)
    (t : List (List Char × List Char)) : encodeRaw (pr :: t) ≠ [] := by
  cases t with
  | nil => simp [encodeRaw, joinAmp]
  | cons p2 t' =>
    have : encodeRaw (pr :: p2 :: t') =
        (pr.1 ++ '=' :: pr.2) ++ '&' :: encodeRaw (p2 :: t') := rfl
    rw [this]
    simp

theorem canonQuery_vals_ne {q : List (List Char × List Char)} :
    ∀ g ∈ canonQuery q, g.2 ≠ [] := fun g hg =>
  groupPairs_vals_ne g (List.mem_of_mem_filter hg)

theorem canonQuery_wf {q : List (List Char × List Char)} (hq : wfQuery q = true) :
    ∀ g ∈ canonQuery q, wfGroup g := fun g hg =>
  groupPairs_wf hq g (List.mem_of_mem_filter hg)

theorem normalize_render (s h p : List Char) (q : List (List Char × List Char))
    (hs : wfScheme s = true) (hh : wfHost h = true) (hp : wfPath p = true)
    (hq : wfQuery q = true) :
    normalize_url (String.mk (renderUrl s h p q)) =
      String.mk (renderUrl s h (canonPath p) (flattenGroups (canonQuery q))) := by
  simp only [normalize_url]
  rw [pyUrlparse_render s h p q hs hh hp hq]
  cases q with
  | nil =>
    simp only [if_pos rfl]
    have hcq : canonQuery ([] : List (List Char × List Char)) = [] := rfl
    simp [renderUrl, canonPath, hcq, flattenGroups, List.append_assoc]
  | cons pr t =>
    have hqne : encodeRaw (pr :: t) ≠ [] := encodeRaw_ne_nil pr t
    rw [if_neg (by simp : ¬(pr :: t : List (List Char × List Char)) = [])]
    simp only [ne_eq, hqne, not_false_eq_true, if_true, if_neg hqne]
    rw [parseQs_encodeRaw _ hq]
    by_cases hcl : cleanedParams (groupPairs (pr :: t)) = []
    · have hfl : flattenGroups (canonQuery (pr :: t)) = [] := by
        unfold canonQuery
        rw [hcl]
        rfl
      simp only [hcl, canonQuery] at *
      simp [hcl, renderUrl, canonPath, hfl, List.append_assoc]
    · have hwfc : ∀ g ∈ cleanedParams (groupPairs (pr :: t)),
          (∀ c ∈ g.1, isQuoteSafe c = true) ∧
            ∀ w ∈ g.2, ∀ c ∈ w, isQuoteSafe c = true := by
        intro g hg
        have hw := canonQuery_wf hq g hg
        exact ⟨fun c hc => (isSafeQ_spec (hw.1.2 c hc)).1,
          fun w hw' c hc => (isSafeQ_spec ((hw.2 w hw').2 c hc)).1⟩
      have henc : urlencode (cleanedParams (groupPairs (pr :: t))) =
          encodeRaw (flattenGroups (canonQuery (pr :: t))) :=
        urlencode_eq_encodeRaw _ hwfc
      have hflne : flattenGroups (canonQuery (pr :: t)) ≠ [] := by
        intro he
        exact hcl ((flattenGroups_eq_nil_iff _ canonQuery_vals_ne).1 he)
      have hencne : urlencode (cleanedParams (groupPairs (pr :: t))) ≠ [] := by
        rw [henc]
        cases hfl : flattenGroups (canonQuery (pr :: t)) with
        | nil => exact absurd hfl hflne
        | cons a b => exact encodeRaw_ne_nil a b
      simp only [ne_eq, hcl, not_false_eq_true, if_true]
      rw [if_pos (by exact hencne)]
      rw [henc]
      simp [renderUrl, canonPath, if_neg hflne, List.append_assoc]

theorem rstripSlash_pref (l : List Char) : rstripSlash l <+: l := by
  unfold rstripSlash
  have h1 : (l.reverse.dropWhile (· = '/')) <:+ l.reverse := List.dropWhile_suffix _
  have h2 := (List.reverse_prefix).2 h1
  simpa using h2

theorem mem_rstripSlash {c : Char} {l : List Char} (hc : c ∈ rstripSlash l) :
    c ∈ l :=
  (rstripSlash_pref l).subset hc

theorem head_rstripSlash {l : List Char} (hne : rstripSlash l ≠ []) :
    (rstripSlash l).head? = l.head? := by
  obtain ⟨t, ht⟩ := rstripSlash_pref l
  have h2 : l.head? = (rstripSlash l ++ t).head? := by rw [ht]
  cases hr : rstripSlash l with
  | nil => exact absurd hr hne
  | cons a b =>
    rw [h2, hr]
    simp

theorem dropWhile_idem {P : Char → Bool} :
    ∀ (l : List Char), (l.dropWhile P).dropWhile P = l.dropWhile P
  | [] => rfl
  | c :: rest => by
    by_cases hc : P c = true
    · simp [List.dropWhile, hc, dropWhile_idem rest]
    · simp [List.dropWhile, hc]

theorem rstripSlash_idem (l : List Char) :
    rstripSlash (rstripSlash l) = rstripSlash l := by
  unfold rstripSlash
  rw [List.reverse_reverse, dropWhile_idem]

theorem canonPath_idem (p : List Char) : canonPath (canonPath p) = canonPath p := by
  unfold canonPath
  by_cases hrs : rstripSlash p = []
  · simp only [hrs, if_pos rfl]
    have : rstripSlash ['/'] = [] := rfl
    simp [this]
  · simp only [if_neg hrs]
    rw [rstripSlash_idem]
    simp [hrs]

theorem wfPath_canonPath {p : List Char} (hp : wfPath p = true) :
    wfPath (canonPath p) = true := by
  unfold canonPath
  by_cases hrs : rstripSlash p = []
  · simp only [hrs, if_pos rfl]
    decide
  · simp only [if_neg hrs]
    simp only [wfPath, Bool.and_eq_true, List.all_eq_true] at hp ⊢
    constructor
    · cases hr : rstripSlash p with
      | nil => exact absurd hr hrs
      | cons a b =>
        have hh := head_rstripSlash (l := p) (by rw [hr]; simp)
        rw [hr] at hh
        cases p with
        | nil => simp [rstripSlash] at hr
        | cons c0 p' =>
          simp at hh
          subst hh
          have := hp.1
          simpa using this
    · exact fun x hx => hp.2 x (mem_rstripSlash hx)

theorem mem_flattenGroups {pr : List Char × List Char}
    {gs : List (List Char × List (List Char))} (hm : pr ∈ flattenGroups gs) :
    ∃ g ∈ gs, pr.1 = g.1 ∧ pr.2 ∈ g.2 := by
  simp only [flattenGroups, List.mem_flatMap, List.mem_map] at hm
  obtain ⟨g, hg, v, hv, hpr⟩ := hm
  exact ⟨g, hg, by rw [← hpr], by rw [← hpr]; exact hv⟩

theorem wfQuery_flatten_canonQuery {q : List (List Char × List Char)}
    (hq : wfQuery q = true) : wfQuery (flattenGroups (canonQuery q)) = true := by
  simp only [wfQuery, List.all_eq_true]
  intro pr hpr
  obtain ⟨g, hg, h1, h2⟩ := mem_flattenGroups hpr
  have hw := canonQuery_wf hq g hg
  simp only [wfPair, Bool.and_eq_true, List.all_eq_true]
  refine ⟨⟨⟨?_, ?_⟩, ?_⟩, ?_⟩
  · rw [h1]; simpa using hw.1.1
  · simpa using (hw.2 pr.2 h2).1
  · rw [h1]; exact hw.1.2
  · exact (hw.2 pr.2 h2).2

theorem canonQuery_no_tracking {q : List (List Char × List Char)} :
    ∀ g ∈ canonQuery q, isTracking g.1 = false := by
  intro g hg
  have := List.of_mem_filter hg
  simpa using this

theorem canonQuery_flatten_canonQuery (q : List (List Char × List Char)) :
    canonQuery (flattenGroups (canonQuery q)) = canonQuery q := by
  have hnodup : List.Pairwise (fun a b => a.1 ≠ b.1) (canonQuery q) :=
    (pairwise_keys_groupPairs q).sublist (List.filter_sublist _)
  have hgf : groupPairs (flattenGroups (canonQuery q)) = canonQuery q :=
    groupPairs_flattenGroups _ hnodup canonQuery_vals_ne
  unfold canonQuery
  rw [show cleanedParams (groupPairs q) = canonQuery q from rfl, hgf]
  apply List.filter_eq_self.2
  intro g hg
  simp [canonQuery_no_tracking g hg]

/-- C6: for every pair of well-formed absolute URLs over the same scheme and
host that differ only by the known tracking query parameters (equal pair
lists once tracking pairs are dropped) or by trailing slashes on the path
(equal paths once trailing slashes are stripped), `normalize_url` maps both
to the identical normalized string, so deduplication treats them as the same
article. -/
theorem C6_normalize_url_tracking_slash_invariant
    (s h p1 p2 : List Char) (q1 q2 : List (List Char × List Char))
    (hs : wfScheme s = true) (hh : wfHost h = true)
    (hp1 : wfPath p1 = true) (hp2 : wfPath p2 = true)
    (hq1 : wfQuery q1 = true) (hq2 : wfQuery q2 = true)
    (hpath : rstripSlash p1 = rstripSlash p2)
    (htrack : dropTracking q1 = dropTracking q2) :
    normalize_url (String.mk (renderUrl s h p1 q1)) =
      normalize_url (String.mk (renderUrl s h p2 q2)) := by
  rw [normalize_render s h p1 q1 hs hh hp1 hq1,
    normalize_render s h p2 q2 hs hh hp2 hq2]
  have hcp : canonPath p1 = canonPath p2 := by unfold canonPath; rw [hpath]
  have hcq : canonQuery q1 = canonQuery q2 := by
    rw [canonQuery_eq_group_dropTracking, canonQuery_eq_group_dropTracking, htrack]
  rw [hcp, hcq]

/-- Witness for C6: a URL with a `utm_source` parameter and a trailing slash
normalizes to the same string as its clean variant. -/
theorem C6_witness :
    normalize_url (String.mk (renderUrl "http".data "example.com".data "/a/".data
        [("utm_source".data, "news".data), ("b".data, "2".data)])) =
      normalize_url (String.mk (renderUrl "http".data "example.com".data "/a".data
        [("b".data, "2".data)])) :=
  C6_normalize_url_tracking_slash_invariant "http".data "example.com".data
    "/a/".data "/a".data [("utm_source".data, "news".data), ("b".data, "2".data)]
    [("b".data, "2".data)] (by decide) (by decide) (by decide) (by decide)
    (by decide) (by decide) (by decide) (by decide)

/-- C10 counterexample: `normalize_url` is not idempotent on every URL
string.  A scheme-less URL such as `"x.com"` normalizes to `"://x.com"`,
which normalizes again to `"://://x.com"`. -/
theorem C10_counterexample :
    normalize_url (normalize_url "x.com") ≠ normalize_url "x.com" := by decide

/-- C10 (amended): `normalize_url` is idempotent on well-formed absolute URLs
(`scheme://host/path?query` with a non-empty scheme and URL-safe query
components): normalizing an already-normalized such URL returns it
unchanged. -/
theorem C10_normalize_url_idempotent_on_absolute
    (s h p : List Char) (q : List (List Char × List Char))
    (hs : wfScheme s = true) (hh : wfHost h = true) (hp : wfPath p = true)
    (hq : wfQuery q = true) :
    normalize_url (normalize_url (String.mk (renderUrl s h p q))) =
      normalize_url (String.mk (renderUrl s h p q)) := by
  rw [normalize_render s h p q hs hh hp hq]
  rw [normalize_render s h (canonPath p) (flattenGroups (canonQuery q)) hs hh
    (wfPath_canonPath hp) (wfQuery_flatten_canonQuery hq)]
  rw [canonPath_idem, canonQuery_flatten_canonQuery]

/-- Witness for the amended C10 at a concrete absolute URL with a tracking
parameter and a trailing slash. -/
theorem C10_witness :
    normalize_url (normalize_url (String.mk (renderUrl "https".data
        "news.site".data "/story/".data
        [("utm_medium".data, "mail".data), ("id".data, "7".data)]))) =
      normalize_url (String.mk (renderUrl "https".data "news.site".data
        "/story/".data [("utm_medium".data, "mail".data), ("id".data, "7".data)])) :=
  C10_normalize_url_idempotent_on_absolute "https".data "news.site".data
    "/story/".data [("utm_medium".data, "mail".data), ("id".data, "7".data)]
    (by decide) (by decide) (by decide) (by decide)

end Dedup

namespace PostParser

theorem scanPat_none {pat : List Char} {body : List Char → Option (List Char)} :
    ∀ {l : List Char}, Py.containsSub pat l = false → scanPat pat body l = none
  | [], h => by
    simp only [Py.containsSub] at h
    simp [scanPat]
  | c :: rest, h => by
    simp only [Py.containsSub, Bool.or_eq_false_iff] at h
    simp [scanPat, h.1, scanPat_none h.2]

theorem strat3Li_none :
    ∀ {l : List Char}, Py.containsSub "**linkedin".data (Py.lower l) = false →
      strat3Li l = none
  | [], _ => rfl
  | c :: rest, h => by
    rw [show Py.lower (c :: rest) = Py.lowerChar c :: Py.lower rest from rfl] at h
    simp only [Py.containsSub, Bool.or_eq_false_iff] at h
    have h1 : ciStarts "**linkedin".data (c :: rest) = false := h.1
    simp [strat3Li, h1, strat3Li_none h.2]

theorem strat3Tw_none :
    ∀ {l : List Char}, Py.containsSub "**twitter".data (Py.lower l) = false →
      Py.containsSub "**x".data (Py.lower l) = false →
      strat3Tw l = none
  | [], _, _ => rfl
  | c :: rest, ht, hx => by
    rw [show Py.lower (c :: rest) = Py.lowerChar c :: Py.lower rest from rfl] at ht hx
    simp only [Py.containsSub, Bool.or_eq_false_iff] at ht hx
    have h1 : ciStarts "**twitter".data (c :: rest) = false := ht.1
    have h2 : ciStarts "**x".data (c :: rest) = false := hx.1
    simp [strat3Tw, h1, h2, strat3Tw_none ht.2 hx.2]

theorem mem_dropWhile_of {P : Char → Bool} {c : Char} (hc : P c = false) :
    ∀ {l : List Char}, c ∈ l → c ∈ l.dropWhile P
  | x :: xs, hm => by
    by_cases hx : P x = true
    · rcases List.mem_cons.1 hm with he | hm'
      · rw [he, hx] at hc; cases hc
      · simp only [List.dropWhile, hx]
        exact mem_dropWhile_of hc hm'
    · simp only [List.dropWhile, Bool.not_eq_true] at hx ⊢
      rw [hx]
      exact hm

theorem mem_stripChars {P : Char → Bool} {c : Char} (hc : P c = false)
    {l : List Char} (hm : c ∈ l) : c ∈ Py.stripChars P l := by
  unfold Py.stripChars
  exact List.mem_reverse.2 (mem_dropWhile_of hc
    (List.mem_reverse.2 (mem_dropWhile_of hc hm)))

theorem mem_strip {c : Char} (hc : Py.isSpace c = false) {l : List Char}
    (hm : c ∈ l) : c ∈ Py.strip l := by
  unfold Py.strip Py.rstrip Py.lstrip
  exact List.mem_reverse.2 (mem_dropWhile_of hc
    (List.mem_reverse.2 (mem_dropWhile_of hc hm)))

theorem drop_takeWhile_length {P : Char → Bool} :
    ∀ (l : List Char), l.drop (l.takeWhile P).length = l.dropWhile P
  | [] => rfl
  | x :: xs => by
    by_cases hx : P x = true
    · simp [List.takeWhile, List.dropWhile, hx, drop_takeWhile_length xs]
    · simp [List.takeWhile, List.dropWhile, hx]

theorem mem_subBoldF {c : Char} (hc : ¬c = '*') :
    ∀ (n : Nat) (l : List Char), c ∈ l → c ∈ subBoldF n l := by
  intro n
  induction n with
  | zero => intro l hm; exact hm
  | succ n ih =>
    intro l hm
    match l with
    | [] => simp at hm
    | [x] => exact hm
    | c1 :: c2 :: rest =>
      rw [subBoldF.eq_def]
      simp only []
      by_cases hstar : c1 = '*' ∧ c2 = '*'
      · have hcr : c ∈ rest := by
          rcases List.mem_cons.1 hm with he | hm'
          · exact absurd (he.trans hstar.1) hc
          · rcases List.mem_cons.1 hm' with he | hm''
            · exact absurd (he.trans hstar.2) hc
            · exact hm''
        rw [if_pos hstar]
        have hc2r : c ∈ subBoldF n (c2 :: rest) := ih _ (List.mem_cons_of_mem _ hcr)
        by_cases hrun : rest.takeWhile (· ≠ '*') = []
        · rw [if_pos hrun]
          exact List.mem_cons_of_mem _ hc2r
        · rw [if_neg hrun]
          split
          next rest2 hdw =>
            have hsp : c ∈ rest.takeWhile (· ≠ '*') ++ rest.dropWhile (· ≠ '*') := by
              rw [List.takeWhile_append_dropWhile]
              exact hcr
            rcases List.mem_append.1 hsp with h1 | h2
            · exact List.mem_append.2 (Or.inl h1)
            · rw [hdw] at h2
              have hcr2 : c ∈ rest2 := by
                rcases List.mem_cons.1 h2 with he | h2'
                · exact absurd he hc
                · rcases List.mem_cons.1 h2' with he | h2''
                  · exact absurd he hc
                  · exact h2''
              exact List.mem_append.2 (Or.inr (ih rest2 hcr2))
          next hnem =>
            exact List.mem_cons_of_mem _ hc2r
      · rw [if_neg hstar]
        rcases List.mem_cons.1 hm with he | hm'
        · exact he ▸ List.mem_cons_self _ _
        · exact List.mem_cons_of_mem _ (ih (c2 :: rest) hm')

theorem mem_subBold {c : Char} (hc : ¬c = '*') {l : List Char} (hm : c ∈ l) :
    c ∈ subBold l := mem_subBoldF hc l.length l hm

theorem mem_subItalicF {c : Char} (hc : ¬c = '*') :
    ∀ (n : Nat) (l : List Char), c ∈ l → c ∈ subItalicF n l := by
  intro n
  induction n with
  | zero => intro l hm; exact hm
  | succ n ih =>
    intro l hm
    match l with
    | [] => simp at hm
    | c1 :: rest =>
      rw [subItalicF.eq_def]
      simp only []
      by_cases hstar : c1 = '*'
      · have hcr : c ∈ rest := by
          rcases List.mem_cons.1 hm with he | hm'
          · exact absurd (he.trans hstar) hc
          · exact hm'
        rw [if_pos hstar]
        have hcr' : c ∈ subItalicF n rest := ih rest hcr
        by_cases hrun : rest.takeWhile (· ≠ '*') = []
        · rw [if_pos hrun]
          exact List.mem_cons_of_mem _ hcr'
        · rw [if_neg hrun]
          split
          next rest2 hdw =>
            have hsp : c ∈ rest.takeWhile (· ≠ '*') ++ rest.dropWhile (· ≠ '*') := by
              rw [List.takeWhile_append_dropWhile]
              exact hcr
            rcases List.mem_append.1 hsp with h1 | h2
            · exact List.mem_append.2 (Or.inl h1)
            · rw [hdw] at h2
              have hcr2 : c ∈ rest2 := by
                rcases List.mem_cons.1 h2 with he | h2'
                · exact absurd he hc
                · exact h2'
              exact List.mem_append.2 (Or.inr (ih rest2 hcr2))
          next hnem =>
            exact List.mem_cons_of_mem _ hcr'
      · rw [if_neg hstar]
        rcases List.mem_cons.1 hm with he | hm'
        · exact he ▸ List.mem_cons_self _ _
        · exact List.mem_cons_of_mem _ (ih rest hm')

theorem mem_subItalic {c : Char} (hc : ¬c = '*') {l : List Char} (hm : c ∈ l) :
    c ∈ subItalic l := mem_subItalicF hc l.length l hm

theorem mem_collapseNLF {c : Char} (hc : ¬c = '\n') :
    ∀ (n : Nat) (l : List Char), c ∈ l → c ∈ collapseNLF n l := by
  intro n
  induction n with
  | zero => intro l hm; exact hm
  | succ n ih =>
    intro l hm
    match l with
    | [] => simp at hm
    | c1 :: rest =>
      rw [collapseNLF.eq_def]
      simp only []
      by_cases hnl : c1 = '\n'
      · have hcr : c ∈ rest := by
          rcases List.mem_cons.1 hm with he | hm'
          · exact absurd (he.trans hnl) hc
          · exact hm'
        rw [if_pos hnl]
        by_cases hrun : 1 + (rest.takeWhile (· = '\n')).length ≥ 3
        · rw [if_pos hrun]
          have hdrop : rest.drop (rest.takeWhile (· = '\n')).length =
              rest.dropWhile (· = '\n') := drop_takeWhile_length rest
          rw [hdrop]
          have hcd : c ∈ rest.dropWhile (· = '\n') :=
            mem_dropWhile_of (by simp [hc]) hcr
          exact List.mem_cons_of_mem _ (List.mem_cons_of_mem _ (ih _ hcd))
        · rw [if_neg hrun]
          exact List.mem_cons_of_mem _ (ih rest hcr)
      · rw [if_neg hnl]
        rcases List.mem_cons.1 hm with he | hm'
        · exact he ▸ List.mem_cons_self _ _
        · exact List.mem_cons_of_mem _ (ih rest hm')

theorem mem_collapseNL {c : Char} (hc : ¬c = '\n') {l : List Char} (hm : c ∈ l) :
    c ∈ collapseNL l := mem_collapseNLF hc l.length l hm

theorem cleanPost_ne_nil {t : List Char} {c : Char} (hgood : goodChar c = true)
    (hm : c ∈ t) : cleanPost t ≠ [] := by
  simp only [goodChar, Bool.and_eq_true, Bool.not_eq_true'] at hgood
  have hsp : Py.isSpace c = false := hgood.1.1.1
  have hst : ¬c = '*' := by simpa using hgood.1.1.2
  have hqu : ¬c = '"' := by simpa using hgood.1.2
  have hq2 : ¬c = '\'' := by simpa using hgood.2
  have htne : ¬t = [] := fun he => by rw [he] at hm; simp at hm
  unfold cleanPost
  rw [if_neg htne]
  have h1 : c ∈ subBold t := mem_subBold hst hm
  have h2 : c ∈ subItalic (subBold t) := mem_subItalic hst h1
  have h3 : c ∈ Py.stripChars isQuoteMark (subItalic (subBold t)) :=
    mem_stripChars (by simp [isQuoteMark, hqu, hq2]) h2
  have h4 : c ∈ collapseNL (Py.stripChars isQuoteMark (subItalic (subBold t))) :=
    mem_collapseNL (fun he => by rw [he] at hsp; simp [Py.isSpace] at hsp) h3
  have h5 : c ∈ Py.strip (collapseNL (Py.stripChars isQuoteMark (subItalic (subBold t)))) :=
    mem_strip hsp h4
  intro he
  rw [he] at h5
  simp at h5

theorem splitNN_ne_nil : ∀ (l : List Char), splitNN l ≠ []
  | [] => by rw [splitNN.eq_def]; simp
  | [c] => by rw [splitNN.eq_def]; simp
  | c1 :: c2 :: rest => by
    rw [splitNN.eq_def]
    simp only []
    by_cases hnl : c1 = '\n' ∧ c2 = '\n'
    · simp [hnl]
    · rw [if_neg hnl]
      split <;> simp

theorem mem_splitNN :
    ∀ (l : List Char) (p : List Char), p ∈ splitNN l →
      (∀ c ∈ p, c ∈ l) ∧ p.length ≤ l.length
  | [], p, hp => by
    rw [splitNN.eq_def] at hp
    simp at hp
    simp [hp]
  | [c], p, hp => by
    rw [splitNN.eq_def] at hp
    simp at hp
    simp [hp]
  | c1 :: c2 :: rest, p, hp => by
    rw [splitNN.eq_def] at hp
    simp only [] at hp
    by_cases hnl : c1 = '\n' ∧ c2 = '\n'
    · rw [if_pos hnl] at hp
      rcases List.mem_cons.1 hp with he | hp'
      · simp [he]
      · have := mem_splitNN rest p hp'
        refine ⟨fun c hc => ?_, by simp; omega⟩
        exact List.mem_cons_of_mem _ (List.mem_cons_of_mem _ (this.1 c hc))
    · rw [if_neg hnl] at hp
      rcases hsp : splitNN (c2 :: rest) with _ | ⟨h0, t0⟩
      · exact absurd hsp (splitNN_ne_nil _)
      · rw [hsp] at hp
        rcases List.mem_cons.1 hp with he | hp'
        · have hh := mem_splitNN (c2 :: rest) h0 (by rw [hsp]; exact List.mem_cons_self _ _)
          subst he
          constructor
          · intro c hc
            rcases List.mem_cons.1 hc with he | hc'
            · exact he ▸ List.mem_cons_self _ _
            · exact List.mem_cons_of_mem _ (hh.1 c hc')
          · have := hh.2
            simp at this ⊢
            omega
        · have := mem_splitNN (c2 :: rest) p (by rw [hsp]; exact List.mem_cons_of_mem _ hp')
          refine ⟨fun c hc => List.mem_cons_of_mem _ (this.1 c hc), ?_⟩
          have := this.2
          simp at this ⊢
          omega

theorem rstrip_pref (l : List Char) : Py.rstrip l <+: l := by
  unfold Py.rstrip
  have h1 : (l.reverse.dropWhile Py.isSpace) <:+ l.reverse := List.dropWhile_suffix _
  have h2 := (List.reverse_prefix).2 h1
  simpa using h2

theorem strip_sublist (l : List Char) : List.Sublist (Py.strip l) l := by
  have h1 : Py.lstrip l <:+ l := List.dropWhile_suffix _
  have h2 : Py.strip l <+: Py.lstrip l := rstrip_pref _
  exact h2.sublist.trans h1.sublist

theorem mem_paragraphsOf {raw p : List Char} (hp : p ∈ paragraphsOf raw) :
    (∀ c ∈ p, c ∈ raw) ∧ p.length ≤ raw.length := by
  unfold paragraphsOf at hp
  have hp1 := List.mem_of_mem_filter hp
  obtain ⟨q, hq, hsq⟩ := List.mem_map.1 hp1
  have hq2 := mem_splitNN raw q hq
  constructor
  · intro c hc
    rw [← hsq] at hc
    exact hq2.1 c ((strip_sublist q).subset hc)
  · rw [← hsq]
    exact le_trans (strip_sublist q).length_le hq2.2

theorem getLastD_mem : ∀ (l : List (List Char)) (d : List Char), l ≠ [] →
    l.getLastD d ∈ l
  | [x], d, _ => by simp [List.getLastD]
  | x :: y :: t, d, _ => by
    have := getLastD_mem (y :: t) x (by simp)
    exact List.mem_cons_of_mem _ this

theorem mem_joinNN_head {c : Char} {h : List Char} {t : List (List Char)}
    (hc : c ∈ h) : c ∈ joinNN (h :: t) := by
  cases t with
  | nil => exact hc
  | cons y t' =>
    rw [show joinNN (h :: y :: t') = h ++ '\n' :: '\n' :: joinNN (y :: t') from rfl]
    exact List.mem_append.2 (Or.inl hc)

theorem startsWith_length :
    ∀ {pat l : List Char}, Py.startsWith pat l = true → pat.length ≤ l.length
  | [], _, _ => by simp
  | p :: ps, [], h => by simp [Py.startsWith] at h
  | p :: ps, c :: cs, h => by
    simp only [Py.startsWith, Bool.and_eq_true] at h
    have := startsWith_length h.2
    simp
    omega

theorem rfindSub_bound {pat : List Char} :
    ∀ {l : List Char} {i : Nat}, rfindSub pat l = some i → i + pat.length ≤ l.length
  | [], i, h => by simp [rfindSub] at h
  | c :: rest, i, h => by
    rw [rfindSub.eq_def] at h
    simp only [] at h
    cases hr : rfindSub pat rest with
    | some j =>
      rw [hr] at h
      have := rfindSub_bound hr
      simp at h
      simp [← h]
      omega
    | none =>
      rw [hr] at h
      by_cases hsw : Py.startsWith pat (c :: rest) = true
      · rw [if_pos hsw] at h
        have := startsWith_length hsw
        simp at h this ⊢
        omega
      · rw [if_neg hsw] at h
        cases h

theorem enforceLimit_ne_nil {tw : List Char} (h : tw ≠ []) : enforceLimit tw ≠ [] := by
  unfold enforceLimit
  by_cases hl : tw.length > 280
  · rw [if_pos hl]
    cases hr : rfindSub ". ".data (tw.take 277) with
    | none => simp
    | some cut =>
      simp only []
      by_cases hc : cut > 200
      · rw [if_pos hc]
        simp only [ne_eq, List.take_eq_nil_iff]
        push_neg
        exact ⟨by omega, h⟩
      · rw [if_neg hc]
        simp
  · rw [if_neg hl]
    exact h

theorem enforceLimit_length_le (tw : List Char) : (enforceLimit tw).length ≤ 280 := by
  unfold enforceLimit
  by_cases hl : tw.length > 280
  · rw [if_pos hl]
    cases hr : rfindSub ". ".data (tw.take 277) with
    | none =>
      simp [List.length_take]
    | some cut =>
      have hb := rfindSub_bound hr
      simp [List.length_take] at hb
      simp only []
      by_cases hc : cut > 200
      · rw [if_pos hc]
        simp [List.length_take]
        omega
      · rw [if_neg hc]
        simp [List.length_take]
  · rw [if_neg hl]
    omega

theorem strat4_good (raw : List Char)
    (hpar : paragraphsOf raw ≠ [])
    (hgood : ∀ p ∈ paragraphsOf raw, ∃ c ∈ p, goodChar c = true)
    (hlen : raw.length ≤ 280) :
    cleanPost (strat4 raw).1 ≠ [] ∧ enforceLimit (cleanPost (strat4 raw).2) ≠ [] := by
  unfold strat4
  by_cases h2 : (paragraphsOf raw).length ≥ 2
  · rw [if_pos h2]
    have hlast_mem : (paragraphsOf raw).getLastD [] ∈ paragraphsOf raw :=
      getLastD_mem _ _ hpar
    have hlast_le : ((paragraphsOf raw).getLastD []).length ≤ raw.length :=
      (mem_paragraphsOf hlast_mem).2
    have hlast_len : ((paragraphsOf raw).getLastD []).length < 300 := by omega
    rw [if_pos hlast_len]
    constructor
    · have hdne : (paragraphsOf raw).dropLast ≠ [] := by
        intro he
        have := List.length_dropLast (paragraphsOf raw)
        rw [he] at this
        simp at this
        omega
      rcases hdl : (paragraphsOf raw).dropLast with _ | ⟨h0, t0⟩
      · exact absurd hdl hdne
      · have h0mem : h0 ∈ paragraphsOf raw :=
          (List.dropLast_sublist _).subset (by rw [hdl]; exact List.mem_cons_self _ _)
        obtain ⟨c, hcm, hcg⟩ := hgood h0 h0mem
        show cleanPost (joinNN (h0 :: t0)) ≠ []
        exact cleanPost_ne_nil hcg (mem_joinNN_head hcm)
    · show enforceLimit (cleanPost (((paragraphsOf raw).getLastD []).take 280)) ≠ []
      rw [List.take_of_length_le (by omega)]
      obtain ⟨c, hcm, hcg⟩ := hgood _ hlast_mem
      exact enforceLimit_ne_nil (cleanPost_ne_nil hcg hcm)
  · rw [if_neg h2]
    rcases hps : paragraphsOf raw with _ | ⟨p0, t0⟩
    · exact absurd hps hpar
    · have hp0 : p0 ∈ paragraphsOf raw := by rw [hps]; exact List.mem_cons_self _ _
      obtain ⟨c, hcm, hcg⟩ := hgood p0 hp0
      have hcraw : c ∈ raw := (mem_paragraphsOf hp0).1 c hcm
      constructor
      · exact cleanPost_ne_nil hcg hcraw
      · show enforceLimit (cleanPost (raw.take 280)) ≠ []
        rw [List.take_of_length_le hlen]
        exact enforceLimit_ne_nil (cleanPost_ne_nil hcg hcraw)

/-- C4 counterexample: the claim fails on whitespace-only input.  `" "` is a
non-empty raw AI output with no delimiters, yet `parse_ai_output` returns two
empty posts (the heuristic split produces only whitespace, which the cleanup
strips away). -/
theorem C4_counterexample :
    (" " : String) ≠ "" ∧ (parse_ai_output " ").linkedin_post = "" ∧
      (parse_ai_output " ").twitter_post = "" := by decide

/-- C4 (amended): for every raw AI output in which none of the strategy
marker substrings occurs, whose blank-line-separated paragraphs are non-empty
and each contain at least one character that survives cleanup (not
whitespace, `*` or a quote), and which is at most 280 characters long,
`parse_ai_output` returns both a non-empty long-form (LinkedIn) post and a
non-empty short-form (Twitter) post. -/
theorem C4_parse_ai_output_nonempty (raw : String)
    (hm : noMarkers raw.data = true)
    (hpar : paragraphsOf raw.data ≠ [])
    (hgood : ∀ p ∈ paragraphsOf raw.data, ∃ c ∈ p, goodChar c = true)
    (hlen : raw.data.length ≤ 280) :
    (parse_ai_output raw).linkedin_post ≠ "" ∧
      (parse_ai_output raw).twitter_post ≠ "" := by
  simp only [noMarkers, Bool.and_eq_true, Bool.not_eq_true'] at hm
  obtain ⟨⟨⟨⟨⟨⟨hm1, hm2⟩, hm3⟩, hm4⟩, hm5⟩, hm6⟩, hm7⟩ := hm
  have hraw : ¬raw.data = [] := by
    intro he
    apply hpar
    rw [he]
    rfl
  have hs1l : strat1Li raw.data = none := scanPat_none hm1
  have hs1t : strat1Tw raw.data = none := scanPat_none hm2
  have hs2l : strat2Li raw.data = none := scanPat_none hm3
  have hs2t : strat2Tw raw.data = none := scanPat_none hm4
  have hs3l : strat3Li raw.data = none := strat3Li_none hm5
  have hs3t : strat3Tw raw.data = none := strat3Tw_none hm6 hm7
  have hgoal := strat4_good raw.data hpar hgood hlen
  unfold parse_ai_output parseAiList
  rw [if_neg hraw, hs1l, hs1t, hs2l, hs2t, hs3l, hs3t]
  simp only [Option.getD_none, if_pos rfl, and_self, ite_true]
  constructor
  · exact fun he => hgoal.1 (congrArg String.data he)
  · exact fun he => hgoal.2 (congrArg String.data he)

/-- Witness for the amended C4 at a concrete two-paragraph AI output. -/
theorem C4_witness :
    (parse_ai_output "Big news about automation today.\n\nShort and sweet tweet!").linkedin_post ≠ "" ∧
      (parse_ai_output "Big news about automation today.\n\nShort and sweet tweet!").twitter_post ≠ "" :=
  C4_parse_ai_output_nonempty "Big news about automation today.\n\nShort and sweet tweet!"
    (by decide) (by decide) (by decide) (by decide)

end PostParser

namespace Fallback

lemma pyChoice_some {α : Type} (xs : List α) (i : Nat) (h : xs ≠ []) :
    ∃ x, pyChoice xs i = some x ∧ x ∈ xs := by
  have hlen : 0 < xs.length := List.length_pos.mpr h
  have hmod : i % xs.length < xs.length := Nat.mod_lt _ hlen
  refine ⟨xs[i % xs.length], ?_, List.getElem_mem hmod⟩
  simp [pyChoice, List.getElem?_eq_getElem hmod]

lemma lookup_of_mem (vars : List (String × String)) (k : String)
    (h : k ∈ vars.map Prod.fst) : ∃ v, vars.lookup k = some v := by
  induction vars with
  | nil => simp at h
  | cons p rest ih =>
    by_cases hk : k = p.1
    · exact ⟨p.2, by simp [List.lookup, hk]⟩
    · have : k ∈ rest.map Prod.fst := by
        simp only [List.map_cons, List.mem_cons] at h
        tauto
      obtain ⟨v, hv⟩ := ih this
      exact ⟨v, by simp [List.lookup, hv, hk, beq_false_of_ne hk]⟩

lemma pyFormatF_ok_of_fmtOkF (fuel : Nat) (vars : List (String × String)) :
    ∀ l : List Char, fmtOkF fuel (vars.map Prod.fst) l = true →
      ∃ r, pyFormatF fuel vars l = .ok r := by
  induction fuel with
  | zero => intro l _; exact ⟨l, rfl⟩
  | succ fuel ih =>
    intro l hok
    match l with
    | [] => exact ⟨[], rfl⟩
    | c :: rest =>
      simp only [fmtOkF] at hok
      simp only [pyFormatF]
      by_cases hc : c = '{'
      · rw [if_pos hc] at hok ⊢
        by_cases hh : rest.head? = some '{'
        · rw [if_pos hh] at hok ⊢
          obtain ⟨r, hr⟩ := ih rest.tail hok
          rw [hr]
          exact ⟨_, rfl⟩
        · rw [if_neg hh] at hok ⊢
          by_cases hd : (rest.drop (rest.takeWhile fun d =>
              d ≠ '}' && d ≠ '{').length).head? = some '}'
          · rw [if_pos hd] at hok ⊢
            rw [Bool.and_eq_true] at hok
            have hmem : String.mk (rest.takeWhile fun d =>
                d ≠ '}' && d ≠ '{') ∈ vars.map Prod.fst := by
              have h1 := hok.1
              simpa [List.contains] using h1
            obtain ⟨v, hv⟩ := lookup_of_mem vars _ hmem
            obtain ⟨r, hr⟩ := ih _ hok.2
            rw [hv, hr]
            exact ⟨_, rfl⟩
          · rw [if_neg hd] at hok; exact absurd hok (by simp)
      · rw [if_neg hc] at hok ⊢
        by_cases hc2 : c = '}'
        · rw [if_pos hc2] at hok ⊢
          by_cases hh : rest.head? = some '}'
          · rw [if_pos hh] at hok ⊢
            obtain ⟨r, hr⟩ := ih rest.tail hok
            rw [hr]
            exact ⟨_, rfl⟩
          · rw [if_neg hh] at hok; exact absurd hok (by simp)
        · rw [if_neg hc2] at hok ⊢
          obtain ⟨r, hr⟩ := ih rest hok
          rw [hr]
          exact ⟨_, rfl⟩

lemma truncTw_le (tw : List Char) : (truncTw tw).length ≤ 280 := by
  unfold truncTw
  split
  · simp only [List.length_append, List.length_take, List.length_cons,
      List.length_nil]
    omega
  · omega

set_option maxRecDepth 4096 in
lemma templates_fmtOk :
    ∀ t ∈ INFINITEO_LINKEDIN_TEMPLATES ++ INFINITEO_TWITTER_TEMPLATES ++
      YOUROPS_LINKEDIN_TEMPLATES ++ YOUROPS_TWITTER_TEMPLATES,
      fmtOk fmtKeys t.data = true := by decide

lemma emojisFor_ne (project_id : String) : emojisFor project_id ≠ [] := by
  unfold emojisFor
  split
  · simp
  · split <;> simp

lemma liT_mem {pid : String} {t : String}
    (h : t ∈ (if pid = "infiniteo" then INFINITEO_LINKEDIN_TEMPLATES
      else if pid = "yourops" then YOUROPS_LINKEDIN_TEMPLATES
      else INFINITEO_LINKEDIN_TEMPLATES)) :
    t ∈ INFINITEO_LINKEDIN_TEMPLATES ++ INFINITEO_TWITTER_TEMPLATES ++
      YOUROPS_LINKEDIN_TEMPLATES ++ YOUROPS_TWITTER_TEMPLATES := by
  simp only [List.mem_append]
  split at h
  · tauto
  · split at h <;> tauto

lemma twT_mem {pid : String} {t : String}
    (h : t ∈ (if pid = "infiniteo" then INFINITEO_TWITTER_TEMPLATES
      else if pid = "yourops" then YOUROPS_TWITTER_TEMPLATES
      else INFINITEO_TWITTER_TEMPLATES)) :
    t ∈ INFINITEO_LINKEDIN_TEMPLATES ++ INFINITEO_TWITTER_TEMPLATES ++
      YOUROPS_LINKEDIN_TEMPLATES ++ YOUROPS_TWITTER_TEMPLATES := by
  simp only [List.mem_append]
  split at h
  · tauto
  · split at h <;> tauto

lemma pyFormat_ok_fmtKeys (e ti st d bu dn : String) (l : List Char)
    (h : fmtOk fmtKeys l = true) :
    ∃ r, pyFormat [("emoji", e), ("title", ti), ("short_title", st),
      ("description", d), ("bullet", bu), ("down", dn)] l = .ok r := by
  apply pyFormatF_ok_of_fmtOkF
  have hmap : List.map Prod.fst [("emoji", e), ("title", ti), ("short_title", st),
      ("description", d), ("bullet", bu), ("down", dn)] = fmtKeys := by
    simp [fmtKeys]
  rw [hmap]
  exact h

lemma generate_tw_le (article_title article_url article_description
    project_id : String) (iEmoji iBullet iDown iLi iTw : Nat) (li tw : String)
    (h : generate_fallback_posts article_title article_url article_description
      project_id iEmoji iBullet iDown iLi iTw = .ok (li, tw)) :
    tw.length ≤ 280 := by
  simp only [generate_fallback_posts] at h
  repeat' split at h
  all_goals simp only [Except.ok.injEq, Prod.mk.injEq, reduceCtorEq] at h
  obtain ⟨h1, h2⟩ := h
  rw [← h2]
  exact truncTw_le _

end Fallback


/-- C3: for every non-empty article title (and any url, description and
project id, and any values of the five random template/emoji draws),
generate_fallback_posts returns a pair of posts rather than an error: every
template choice is drawn from a non-empty list, and every chosen template
formats successfully because its replacement fields are exactly the six
supplied keys. -/
theorem Fallback.C3_generate_fallback_posts_total
    (article_title article_url article_description project_id : String)
    (iEmoji iBullet iDown iLi iTw : Nat) (h : article_title ≠ "") :
    ∃ li tw, Fallback.generate_fallback_posts article_title article_url
      article_description project_id iEmoji iBullet iDown iLi iTw =
      .ok (li, tw) := by
  obtain ⟨emoji, hE, _⟩ :=
    Fallback.pyChoice_some (Fallback.emojisFor project_id) iEmoji
      (Fallback.emojisFor_ne _)
  obtain ⟨bullet, hB, _⟩ :=
    Fallback.pyChoice_some Fallback.BULLET_EMOJIS iBullet
      (by simp [Fallback.BULLET_EMOJIS])
  obtain ⟨down, hD, _⟩ :=
    Fallback.pyChoice_some Fallback.DOWN_EMOJIS iDown
      (by simp [Fallback.DOWN_EMOJIS])
  obtain ⟨li_t, hLi, hLmem⟩ :=
    Fallback.pyChoice_some (if project_id = "infiniteo" then
        Fallback.INFINITEO_LINKEDIN_TEMPLATES
      else if project_id = "yourops" then Fallback.YOUROPS_LINKEDIN_TEMPLATES
      else Fallback.INFINITEO_LINKEDIN_TEMPLATES) iLi
      (by split
          · simp [Fallback.INFINITEO_LINKEDIN_TEMPLATES]
          · split <;> simp [Fallback.YOUROPS_LINKEDIN_TEMPLATES,
              Fallback.INFINITEO_LINKEDIN_TEMPLATES])
  obtain ⟨tw_t, hTw, hTmem⟩ :=
    Fallback.pyChoice_some (if project_id = "infiniteo" then
        Fallback.INFINITEO_TWITTER_TEMPLATES
      else if project_id = "yourops" then Fallback.YOUROPS_TWITTER_TEMPLATES
      else Fallback.INFINITEO_TWITTER_TEMPLATES) iTw
      (by split
          · simp [Fallback.INFINITEO_TWITTER_TEMPLATES]
          · split <;> simp [Fallback.YOUROPS_TWITTER_TEMPLATES,
              Fallback.INFINITEO_TWITTER_TEMPLATES])
  obtain ⟨rLi, hfLi⟩ := Fallback.pyFormat_ok_fmtKeys emoji
    (if article_title ≠ "" then article_title else "Industry Update")
    (if article_title ≠ "" then String.mk (article_title.data.take 120)
      else "Latest Industry Update")
    (if article_description ≠ "" ∧ 300 < article_description.length then
        String.mk (article_description.data.take 300) ++ "..."
      else article_description)
    bullet down li_t.data
    (Fallback.templates_fmtOk li_t (Fallback.liT_mem hLmem))
  obtain ⟨rTw, hfTw⟩ := Fallback.pyFormat_ok_fmtKeys emoji
    (if article_title ≠ "" then article_title else "Industry Update")
    (if article_title ≠ "" then String.mk (article_title.data.take 120)
      else "Latest Industry Update")
    (if article_description ≠ "" ∧ 300 < article_description.length then
        String.mk (article_description.data.take 300) ++ "..."
      else article_description)
    bullet down tw_t.data
    (Fallback.templates_fmtOk tw_t (Fallback.twT_mem hTmem))
  refine ⟨String.mk rLi, String.mk (Fallback.truncTw rTw), ?_⟩
  simp only [Fallback.generate_fallback_posts, hE, hB, hD, hLi, hTw, hfLi, hfTw]

/-- C3 witness: a concrete instantiation of the totality theorem. -/
theorem Fallback.C3_witness :
    ("AI breakthrough announced" : String) ≠ "" ∧
    ∃ li tw, Fallback.generate_fallback_posts "AI breakthrough announced"
      "https://example.com/a" "A new development." "infiniteo" 0 1 0 1 2 =
      .ok (li, tw) :=
  ⟨by decide, Fallback.C3_generate_fallback_posts_total
    "AI breakthrough announced" "https://example.com/a" "A new development."
    "infiniteo" 0 1 0 1 2 (by decide)⟩

namespace Validator

lemma applyCheck_is_valid (r : ValidationResult) (c : Bool) (p : Int) :
    (applyCheck r c p).is_valid = (!c && r.is_valid) := by
  cases c <;> simp [applyCheck]

lemma applySoft_is_valid (r : ValidationResult) (c : Bool) (p : Int) :
    (applySoft r c p).is_valid = r.is_valid := by
  cases c <;> simp [applySoft]

end Validator


/-- C5: the 280-character Twitter ceiling. (i) The length-ceiling condition of
check 9 does not fire on a post of at most 280 characters, so an exactly-280
post is accepted with respect to the ceiling; (ii) any pair whose Twitter post
exceeds 280 characters is marked invalid by validate_posts; (iii)
parse_ai_output truncates its short-form output to at most 280 characters;
(iv) generate_fallback_posts truncates its Twitter output to at most 280
characters. -/
theorem Validator.C5_twitter_length_ceiling :
    (∀ tw : String, tw.length ≤ 280 →
      Validator.twitterTooLong tw.data = false) ∧
    (∀ li tw : String, ∀ hs : List String, 280 < tw.length →
      (Validator.validate_posts li tw hs).is_valid = false) ∧
    (∀ raw : String,
      (PostParser.parse_ai_output raw).twitter_post.length ≤ 280) ∧
    (∀ article_title article_url article_description project_id : String,
      ∀ iE iB iD iL iT : Nat, ∀ li tw : String,
      Fallback.generate_fallback_posts article_title article_url
        article_description project_id iE iB iD iL iT = .ok (li, tw) →
      tw.length ≤ 280) := by
  refine ⟨?_, ?_, ?_, ?_⟩
  · intro tw h
    have h' : tw.data.length ≤ 280 := h
    simp [Validator.twitterTooLong, Nat.not_lt.mpr h']
    intro _
    exact h
  · intro li tw hs h
    have h' : 280 < tw.data.length := h
    have hne : tw.data ≠ [] := by
      intro he
      rw [he] at h'
      simp at h'
    have htl : Validator.twitterTooLong tw.data = true := by
      simp [Validator.twitterTooLong, hne]
      exact h
    simp only [Validator.validate_posts, Validator.applyCheck_is_valid,
      Validator.applySoft_is_valid, htl]
    simp
  · intro raw
    show (PostParser.parseAiList raw.data).2.length ≤ 280
    simp only [PostParser.parseAiList]
    split
    · simp
    · exact PostParser.enforceLimit_length_le _
  · intro article_title article_url article_description project_id iE iB iD
      iL iT li tw h
    exact Fallback.generate_tw_le article_title article_url
      article_description project_id iE iB iD iL iT li tw h

set_option maxRecDepth 8192 in
/-- C5 witness: a 281-character Twitter post is marked invalid, and the
ceiling condition does not fire at exactly 280. -/
theorem Validator.C5_witness :
    (280 < (String.mk (List.replicate 281 'a')).length ∧
      (Validator.validate_posts "" (String.mk (List.replicate 281 'a'))
        []).is_valid = false) ∧
    ((String.mk (List.replicate 280 'a')).length ≤ 280 ∧
      Validator.twitterTooLong (String.mk (List.replicate 280 'a')).data =
        false) :=
  ⟨⟨by decide, Validator.C5_twitter_length_ceiling.2.1 ""
      (String.mk (List.replicate 281 'a')) [] (by decide)⟩,
    ⟨by decide, Validator.C5_twitter_length_ceiling.1
      (String.mk (List.replicate 280 'a')) (by decide)⟩⟩

/-- C7: the scorer is deterministic. The embedding exhibits score_articles as
a pure function of the candidate list, the scoring configuration, the clock
reading and the (pure) date parser — no random source appears anywhere in the
computation — so two invocations on identical inputs return identical scored
lists (hence identical relevance scores for every article) and select_best
returns the same top selection. -/
theorem Scorer.C7_score_articles_deterministic
    (parseDate : String → Option ℚ) (now1 now2 : ℚ)
    (arts1 arts2 : List Scorer.Article) (cfg1 cfg2 : Scorer.ScoringConfig)
    (ha : arts1 = arts2) (hc : cfg1 = cfg2) (hn : now1 = now2) :
    Scorer.score_articles parseDate now1 arts1 cfg1 =
      Scorer.score_articles parseDate now2 arts2 cfg2 ∧
    (Scorer.score_articles parseDate now1 arts1 cfg1).map Prod.snd =
      (Scorer.score_articles parseDate now2 arts2 cfg2).map Prod.snd ∧
    Scorer.select_best (Scorer.score_articles parseDate now1 arts1 cfg1) =
      Scorer.select_best (Scorer.score_articles parseDate now2 arts2 cfg2) := by
  subst ha hc hn
  exact ⟨rfl, rfl, rfl⟩

/-- C7 witness: two invocations on a concrete two-article list with a
concrete configuration and clock. -/
theorem Scorer.C7_witness :
    Scorer.score_articles (fun _ => some 0) 7200
        [⟨"AI tools boom", "agents everywhere", "2025-01-01"⟩,
         ⟨"politics row", "election news", "2025-01-02"⟩]
        ⟨[("ai", 5)], [("politics", -10)], [("ai+agents", 3)], [(6, 5), (24, 2)], 10⟩ =
      Scorer.score_articles (fun _ => some 0) 7200
        [⟨"AI tools boom", "agents everywhere", "2025-01-01"⟩,
         ⟨"politics row", "election news", "2025-01-02"⟩]
        ⟨[("ai", 5)], [("politics", -10)], [("ai+agents", 3)], [(6, 5), (24, 2)], 10⟩ :=
  (Scorer.C7_score_articles_deterministic (fun _ => some 0) 7200 7200
    [⟨"AI tools boom", "agents everywhere", "2025-01-01"⟩,
     ⟨"politics row", "election news", "2025-01-02"⟩]
    [⟨"AI tools boom", "agents everywhere", "2025-01-01"⟩,
     ⟨"politics row", "election news", "2025-01-02"⟩]
    ⟨[("ai", 5)], [("politics", -10)], [("ai+agents", 3)], [(6, 5), (24, 2)], 10⟩
    ⟨[("ai", 5)], [("politics", -10)], [("ai+agents", 3)], [(6, 5), (24, 2)], 10⟩
    rfl rfl rfl).1

namespace AIGen

lemma innerLoop_some_validate (call : Nat → Except String String)
    (elapsed : Nat → ℚ) :
    ∀ remaining r response, innerLoop call elapsed r remaining = some response →
      validate_ai_response response = true := by
  intro remaining
  induction remaining with
  | zero => intro r response h; exact absurd h (by simp [innerLoop])
  | succ n ih =>
    intro r response h
    simp only [innerLoop] at h
    split at h
    · exact absurd h (by simp)
    · split at h
      · split at h
        · simp only [Option.some.injEq] at h
          subst h
          assumption
        · exact absurd h (by simp)
      · split at h
        · split at h
          · exact ih _ _ h
          · exact absurd h (by simp)
        · exact absurd h (by simp)

lemma outerLoop_cases (call : Nat → Nat → Except String String)
    (elapsedM : Nat → ℚ) (elapsedR : Nat → Nat → ℚ) :
    ∀ models idx, outerLoop call elapsedM elapsedR idx models = none ∨
      ∃ c, outerLoop call elapsedM elapsedR idx models = some c ∧
        validate_ai_response c.raw_output = true ∧ c.model_used ∈ models := by
  intro models
  induction models with
  | nil => intro idx; exact Or.inl rfl
  | cons m rest ih =>
    intro idx
    simp only [outerLoop]
    split
    · exact Or.inl rfl
    · rcases hinner : innerLoop (call idx) (elapsedR idx) 0
        (RETRY_DELAYS.length + 1) with _ | response
      · rcases ih (idx + 1) with h | ⟨c, hc, hv, hm⟩
        · exact Or.inl h
        · exact Or.inr ⟨c, hc, hv, List.mem_cons_of_mem _ hm⟩
      · refine Or.inr ⟨⟨response, m⟩, rfl, ?_, List.mem_cons_self _ _⟩
        exact innerLoop_some_validate _ _ _ _ _ hinner

end AIGen


/-- C8: generate_posts never surfaces an exception: every API-call exception
is consumed by the retry/fallback control flow, and the function either
returns `none` (so the orchestrator can fall back to templates) or returns
content that passed _validate_ai_response from one of the chain's models.
Moreover it returns `none` outright when the global time budget is already
exhausted at the first model check, and when the model chain is empty. -/
theorem AIGen.C8_generate_posts_no_exception (models : List String)
    (call : Nat → Nat → Except String String) (elapsedM : Nat → ℚ)
    (elapsedR : Nat → Nat → ℚ) :
    (AIGen.generate_posts models call elapsedM elapsedR = none ∨
      ∃ c, AIGen.generate_posts models call elapsedM elapsedR = some c ∧
        AIGen.validate_ai_response c.raw_output = true ∧
        c.model_used ∈ models) ∧
    (AIGen.AI_TOTAL_BUDGET < elapsedM 0 →
      AIGen.generate_posts models call elapsedM elapsedR = none) ∧
    (models = [] →
      AIGen.generate_posts models call elapsedM elapsedR = none) := by
  refine ⟨AIGen.outerLoop_cases call elapsedM elapsedR models 0, ?_, ?_⟩
  · intro hb
    cases models with
    | nil => rfl
    | cons m rest =>
      simp only [AIGen.generate_posts, AIGen.outerLoop]
      rw [if_pos hb]
  · intro h
    subst h
    rfl

/-- C8 witness: a two-model chain in which every call raises a non-retryable
server error returns `none`; with the budget already exceeded the result is
`none` as well. -/
theorem AIGen.C8_witness :
    ((AIGen.generate_posts ["chickytutor", "openai"]
        (fun _ _ => .error "500 internal server error") (fun _ => 0)
        (fun _ _ => 0) = none ∨
      ∃ c, AIGen.generate_posts ["chickytutor", "openai"]
          (fun _ _ => .error "500 internal server error") (fun _ => 0)
          (fun _ _ => 0) = some c ∧
        AIGen.validate_ai_response c.raw_output = true ∧
        c.model_used ∈ ["chickytutor", "openai"]) ∧
    AIGen.AI_TOTAL_BUDGET < (121 : ℚ)) ∧
    AIGen.generate_posts ["chickytutor", "openai"]
      (fun _ _ => .error "500 internal server error") (fun _ => 121)
      (fun _ _ => 0) = none :=
  ⟨⟨(AIGen.C8_generate_posts_no_exception ["chickytutor", "openai"]
      (fun _ _ => .error "500 internal server error") (fun _ => 0)
      (fun _ _ => 0)).1, by norm_num [AIGen.AI_TOTAL_BUDGET]⟩,
    (AIGen.C8_generate_posts_no_exception ["chickytutor", "openai"]
      (fun _ _ => .error "500 internal server error") (fun _ => 121)
      (fun _ _ => 0)).2.1 (by norm_num [AIGen.AI_TOTAL_BUDGET])⟩

namespace Orchestrator

lemma finalizeStatus_props (pf ps : Nat) (b : Bool) :
    ((finalizeStatus pf ps b).1 = "partial_failure" ∨
     (finalizeStatus pf ps b).1 = "failed" ∨
     (finalizeStatus pf ps b).1 = "success") ∧
    ((finalizeStatus pf ps b).1 = "failed" →
      (finalizeStatus pf ps b).2 ≠ "") := by
  unfold finalizeStatus
  split_ifs <;> simp

lemma finRun_props (pid tt : String) (env : Env) (ufb : Bool)
    (ps pf : Nat) (hasLi : Bool)
    (hpp : ∀ e, env.persistPosts = .error e → e ≠ "")
    (hfc : ∀ e, env.finalCommit = .error e → e ≠ "") :
    ((finRun pid tt env ufb ps pf hasLi).status = "failed" ∨
     (finRun pid tt env ufb ps pf hasLi).status = "partial_failure" ∨
     (finRun pid tt env ufb ps pf hasLi).status = "success") ∧
    ((finRun pid tt env ufb ps pf hasLi).status = "failed" →
      (finRun pid tt env ufb ps pf hasLi).error_message ≠ "") := by
  rcases hp : env.persistPosts with e | u
  · have hst : (finRun pid tt env ufb ps pf hasLi).status = "failed" := by
      simp [finRun, hp]
    have hmsg : (finRun pid tt env ufb ps pf hasLi).error_message = e := by
      simp [finRun, hp]
    exact ⟨Or.inl hst, fun _ => hmsg ▸ hpp e hp⟩
  · rcases hf : env.finalCommit with e | u
    · have hst : (finRun pid tt env ufb ps pf hasLi).status = "failed" := by
        simp [finRun, hp, hf]
      have hmsg : (finRun pid tt env ufb ps pf hasLi).error_message = e := by
        simp [finRun, hp, hf]
      exact ⟨Or.inl hst, fun _ => hmsg ▸ hfc e hf⟩
    · have hst : (finRun pid tt env ufb ps pf hasLi).status =
          (finalizeStatus pf ps hasLi).1 := by
        simp [finRun, hp, hf]
      have hmsg : (finRun pid tt env ufb ps pf hasLi).error_message =
          (finalizeStatus pf ps hasLi).2 := by
        simp [finRun, hp, hf]
      rw [hst, hmsg]
      exact ⟨(finalizeStatus_props pf ps hasLi).1.elim
        (fun h => Or.inr (Or.inl h))
        (fun h => h.elim (fun h => Or.inl h) (fun h => Or.inr (Or.inr h))),
        (finalizeStatus_props pf ps hasLi).2⟩

lemma postsStage_props (pid tt : String) (project : Project) (env : Env)
    (best : RawArticle)
    (hpp : ∀ e, env.persistPosts = .error e → e ≠ "")
    (hfc : ∀ e, env.finalCommit = .error e → e ≠ "") :
    ((postsStage pid tt project env best).status = "failed" ∨
     (postsStage pid tt project env best).status = "partial_failure" ∨
     (postsStage pid tt project env best).status = "success") ∧
    ((postsStage pid tt project env best).status = "failed" →
      (postsStage pid tt project env best).error_message ≠ "") := by
  simp only [postsStage]
  repeat' split
  all_goals first
    | exact ⟨Or.inl rfl, fun _ => by simp⟩
    | exact finRun_props _ _ _ _ _ _ _ hpp hfc

lemma runBody_props (pid tt : String) (project : Project) (env : Env)
    (hpp : ∀ e, env.persistPosts = .error e → e ≠ "")
    (hfc : ∀ e, env.finalCommit = .error e → e ≠ "") :
    ((runBody pid tt project env).status = "failed" ∨
     (runBody pid tt project env).status = "partial_failure" ∨
     (runBody pid tt project env).status = "success") ∧
    ((runBody pid tt project env).status = "failed" →
      (runBody pid tt project env).error_message ≠ "") := by
  simp only [runBody]
  repeat' split
  all_goals first
    | exact ⟨Or.inl rfl, fun _ => by simp⟩
    | exact postsStage_props pid tt project env _ hpp hfc

end Orchestrator


/-- C2 counterexample: for a project that exists and is active but whose
stored config JSON is malformed, run_pipeline raises (json.loads runs after
the active-project check but before the try block), so an exception escapes
to the caller and no PipelineRun is returned. -/
theorem Orchestrator.C2_counterexample :
    Orchestrator.envC2.project.isSome = true ∧
    Orchestrator.run_pipeline "infiniteo" "cron" Orchestrator.envC2 =
      .error "Expecting value: line 1 column 1 (char 0)" :=
  ⟨rfl, rfl⟩

/-- C2 (amended): for a project that exists and is active, IF additionally
the three json.loads calls on the project config succeed and the initial
PipelineRun insert/commit succeeds (both run before the try block), THEN
run_pipeline returns a PipelineRun; its status is failed, partial_failure or
success, and a failed status comes with a non-empty error message provided
the modelled exception texts are non-empty. -/
theorem Orchestrator.C2_run_pipeline_no_escape (pid tt : String)
    (env : Orchestrator.Env) (project : Orchestrator.Project)
    (hp : env.project = some project)
    (hc : env.configParse = .ok ())
    (hr : env.persistRun = .ok ())
    (hpp : ∀ e, env.persistPosts = .error e → e ≠ "")
    (hfc : ∀ e, env.finalCommit = .error e → e ≠ "") :
    ∃ run, Orchestrator.run_pipeline pid tt env = .ok run ∧
      (run.status = "failed" ∨ run.status = "partial_failure" ∨
        run.status = "success") ∧
      (run.status = "failed" → run.error_message ≠ "") := by
  refine ⟨Orchestrator.runBody pid tt project env, ?_,
    Orchestrator.runBody_props pid tt project env hpp hfc⟩
  simp [Orchestrator.run_pipeline, hp, hc, hr]

/-- C2 witness: the amended theorem at a healthy concrete environment. -/
theorem Orchestrator.C2_witness :
    Orchestrator.envC2ok.project = some ⟨"Infiniteo", "professional", true⟩ ∧
    ∃ run, Orchestrator.run_pipeline "infiniteo" "cron" Orchestrator.envC2ok =
        .ok run ∧
      (run.status = "failed" ∨ run.status = "partial_failure" ∨
        run.status = "success") ∧
      (run.status = "failed" → run.error_message ≠ "") :=
  ⟨rfl, Orchestrator.C2_run_pipeline_no_escape "infiniteo" "cron"
    Orchestrator.envC2ok ⟨"Infiniteo", "professional", true⟩ rfl rfl rfl
    (fun e h => Except.noConfusion h) (fun e h => Except.noConfusion h)⟩

/-- C1 counterexample: a run in which a publish target existed (Twitter is
enabled) and every publish attempt failed (the single Twitter attempt), yet
because no LinkedIn profile is active the finalize rule of lines 349-356
sets status "success" with no error message — not the `failed` the claim
asserts for "publish targets existed but every attempt failed". -/
theorem Orchestrator.C1_counterexample :
    Orchestrator.envC1.project = some ⟨"Infiniteo", "professional", true⟩ ∧
    Orchestrator.envC1.linkedinProfiles = [] ∧
    Orchestrator.envC1.twitterPublish = .ok false ∧
    Orchestrator.publishCounts ⟨"Infiniteo", "professional", true⟩
      Orchestrator.envC1 = (0, 1) ∧
    Orchestrator.run_pipeline "infiniteo" "manual" Orchestrator.envC1 =
      .ok ⟨"infiniteo", "manual", "success", "", true⟩ :=
  ⟨rfl, rfl, rfl, rfl, rfl⟩

/-- C1 (amended): the finalize rule as implemented. Status is
partial_failure exactly when at least one publish attempt succeeded and at
least one failed; `failed` (with the error message "All publish attempts
failed") exactly when every attempt failed, at least one attempt was made,
AND at least one active LinkedIn profile existed — the gate is the LinkedIn
profile list, not "publish targets existed", so a Twitter-only all-failed
run finalizes as success; and success in every remaining case, including
zero publish targets. -/
theorem Orchestrator.C1_finalize_status_rule (pf ps : Nat) (b : Bool) :
    ((Orchestrator.finalizeStatus pf ps b).1 = "partial_failure" ↔
      0 < pf ∧ 0 < ps) ∧
    ((Orchestrator.finalizeStatus pf ps b).1 = "failed" ↔
      0 < pf ∧ ps = 0 ∧ b = true) ∧
    ((Orchestrator.finalizeStatus pf ps b).1 = "failed" →
      (Orchestrator.finalizeStatus pf ps b).2 =
        "All publish attempts failed") ∧
    ((Orchestrator.finalizeStatus pf ps b).1 = "success" ↔
      pf = 0 ∨ (ps = 0 ∧ b = false)) := by
  cases b <;> unfold Orchestrator.finalizeStatus <;>
    split_ifs with h1 h2 <;>
    refine ⟨?_, ?_, ?_, ?_⟩ <;>
    simp_all <;>
    omega

/-- C1 witness: concrete instantiations of the finalize rule — one failed
Twitter-only attempt finalizes as success; one success plus one failure with
a LinkedIn profile finalizes as partial_failure. -/
theorem Orchestrator.C1_witness :
    (Orchestrator.finalizeStatus 1 0 false).1 = "success" ∧
    (Orchestrator.finalizeStatus 1 1 true).1 = "partial_failure" :=
  ⟨(Orchestrator.C1_finalize_status_rule 1 0 false).2.2.2.mpr
      (Or.inr ⟨rfl, rfl⟩),
    (Orchestrator.C1_finalize_status_rule 1 1 true).1.mpr
      ⟨by decide, by decide⟩⟩

/-- C9 counterexample: run_pipeline itself performs no overlap check — with
a PipelineRun of status "running" already recorded for the project
(runningRuns = 1), run_pipeline proceeds and completes a second run. -/
theorem Orchestrator.C9_counterexample :
    0 < Orchestrator.envC9.runningRuns ∧
    Orchestrator.run_pipeline "infiniteo" "manual" Orchestrator.envC9 =
      .ok ⟨"infiniteo", "manual", "success", "", true⟩ :=
  ⟨by decide, rfl⟩

/-- C9 (amended): the overlap refusal lives in the API entry point, not in
run_pipeline: trigger_pipeline answers 409 ("A pipeline run is already in
progress"), starting nothing, exactly when the project exists and a run with
status "running" exists for it; it proceeds to start a run exactly when the
project exists and no running run does. -/
theorem Orchestrator.C9_trigger_pipeline_refuses
    (projectFound runningExists : Bool) :
    (Orchestrator.trigger_pipeline projectFound runningExists =
        .error 409 ↔ projectFound = true ∧ runningExists = true) ∧
    (Orchestrator.trigger_pipeline projectFound runningExists = .ok () ↔
      projectFound = true ∧ runningExists = false) := by
  cases projectFound <;> cases runningExists <;>
    constructor <;> simp [Orchestrator.trigger_pipeline]

/-- C9 witness: with the project present and a running run recorded, the
trigger endpoint answers 409. -/
theorem Orchestrator.C9_witness :
    Orchestrator.trigger_pipeline true true = .error 409 :=
  (Orchestrator.C9_trigger_pipeline_refuses true true).1.mpr ⟨rfl, rfl⟩
